import Mathlib

/-!
Verification development for the expensior repository.

This file gives a shallow embedding, in Lean 4, of the core algorithms of the
repository and proves properties of the embedded definitions:

* the rule-based classification engine
  (`src/backend/app/services/classifier.py`: `apply_conditions`, `apply_rules`,
  `load_unclassified_transactions`, `save_classifications`, `run_classification`),
* the manual categorisation write path
  (`src/backend/app/api/endpoints/transactions.py`: `categorize_transaction`),
* the extraction identity-resolution fallback and the import batch loader
  (`src/scripts/extract_transform.py`: `short_hash`, the synthetic-id and
  intra-batch dedup passes of `transform`, `insert_import_batch`,
  `insert_transactions`, and the transactional part of `main`).

Modelling conventions:

* Python floats only ever enter the embedded claims through exact comparisons
  or through their `str()` rendering; amounts are therefore modelled as `Rat`
  in the classifier and as their rendered decimal string in the hashing stage.
* `pandas` boolean masks over a DataFrame become `List Bool` aligned with a
  `List` of rows; vectorised column updates become `List.map`.
* SQLite tables become Lean lists of records in insertion order; SQL `UPDATE`
  becomes `List.map`, `INSERT` becomes list append, and transactions
  (`BEGIN`/`commit`/`rollback`) become functions that either return the new
  state or the unchanged original state.
* Python `re` regular-expression compilation and `json.loads` are library
  functions external to the repository; the embedding abstracts them as
  function parameters (`rc : String → Option (String → Bool)` returning `none`
  exactly when `re.error` is raised, and `pc : String → Option Conditions`
  returning `none` exactly when `json.JSONDecodeError` is raised).  Every
  theorem quantifies over these parameters, and witnesses instantiate them.
* `hashlib.sha256` is embedded as a full executable SHA-256 implementation so
  that hash-dependent identity claims can be settled on concrete inputs.
-/

namespace Expensior

/-! ### Generic stable insertion sort

Used to model the sorting performed by `ORDER BY` and by pandas
`sort_values`.  `insSortKey k` is the stable ascending sort by integer key
`k`: elements with equal keys keep their original relative order. -/

/-- Insert `a` into `l` before the first element whose key is not strictly
smaller than the key of `a`.  When `l` is sorted ascending by `k` this is the
stable insertion step. -/
def insKey {α : Type} (k : α → Int) (a : α) : List α → List α
  | [] => [a]
  | b :: bs => if k b < k a then b :: insKey k a bs else a :: b :: bs

/-- Stable insertion sort, ascending by key `k`. -/
def insSortKey {α : Type} (k : α → Int) : List α → List α
  | [] => []
  | a :: as => insKey k a (insSortKey k as)

theorem insKey_perm {α : Type} (k : α → Int) (a : α) (l : List α) :
    (insKey k a l).Perm (a :: l) := by
  induction l with
  | nil => simp [insKey]
  | cons b bs ih =>
    simp only [insKey]
    by_cases h : k b < k a
    · simp only [h, if_pos]
      exact (ih.cons b).trans (List.Perm.swap a b bs)
    · simp [h]

theorem insSortKey_perm {α : Type} (k : α → Int) (l : List α) :
    (insSortKey k l).Perm l := by
  induction l with
  | nil => simp [insSortKey]
  | cons a as ih =>
    exact (insKey_perm k a (insSortKey k as)).trans (ih.cons a)

theorem mem_insSortKey {α : Type} {k : α → Int} {l : List α} {a : α} :
    a ∈ insSortKey k l ↔ a ∈ l :=
  (insSortKey_perm k l).mem_iff

theorem insKey_pairwise {α : Type} {k : α → Int} {a : α} {l : List α}
    (hl : l.Pairwise (fun x y => k x ≤ k y)) :
    (insKey k a l).Pairwise (fun x y => k x ≤ k y) := by
  induction l with
  | nil => simp [insKey]
  | cons b bs ih =>
    rcases List.pairwise_cons.mp hl with ⟨hb, hbs⟩
    simp only [insKey]
    by_cases h : k b < k a
    · simp only [h, if_pos]
      refine List.pairwise_cons.mpr ⟨?_, ih hbs⟩
      intro x hx
      rcases List.mem_cons.mp ((insKey_perm k a bs).mem_iff.mp hx) with rfl | hx
      · exact le_of_lt h
      · exact hb x hx
    · simp only [h, if_neg]
      refine List.pairwise_cons.mpr ⟨?_, hl⟩
      intro x hx
      rcases List.mem_cons.mp hx with rfl | hx
      · exact le_of_not_lt h
      · exact le_trans (le_of_not_lt h) (hb x hx)

theorem insSortKey_pairwise {α : Type} (k : α → Int) (l : List α) :
    (insSortKey k l).Pairwise (fun x y => k x ≤ k y) := by
  induction l with
  | nil => simp [insSortKey]
  | cons a as ih => exact insKey_pairwise ih

theorem insSortKey_nodup {α : Type} {k : α → Int} {l : List α}
    (h : l.Nodup) : (insSortKey k l).Nodup :=
  ((insSortKey_perm k l).nodup_iff).mpr h

/-! ### Python string helpers -/

/-- ASCII lower-casing of one character, the fragment of `str.lower` and of
`re.IGNORECASE` matching exercised by the rule patterns. -/
def lowerChar (c : Char) : Char :=
  if 65 ≤ c.toNat ∧ c.toNat ≤ 90 then Char.ofNat (c.toNat + 32) else c

/-- Lower-cased character list of a string. -/
def lowerStr (s : String) : List Char := s.data.map lowerChar

/-- Does `pat` occur as a contiguous sublist of `hay`? -/
def infixOf (pat : List Char) : List Char → Bool
  | [] => pat.isEmpty
  | c :: rest => pat.isPrefixOf (c :: rest) || infixOf pat rest

/-- Case-insensitive literal substring test: the semantics of pandas
`Series.str.contains(re.escape(pat), case=False)` on a present (non-NaN)
cell — `re.escape` makes the pattern a literal. -/
def containsCI (hay pat : String) : Bool :=
  infixOf (lowerStr pat) (lowerStr hay)

/-- Same test on a nullable cell: pandas `str.contains(..., na=False)` gives
`False` on a missing value. -/
def optContainsCI (cell : Option String) (pat : String) : Bool :=
  match cell with
  | none => false
  | some s => containsCI s pat

/-- Python `str.strip()` for the ASCII whitespace that can occur in the
`conditions` column. -/
def isSpaceChar (c : Char) : Bool :=
  c = ' ' ∨ c = '\t' ∨ c = '\n' ∨ c = '\r'

/-- Python `str.strip()` on a character list. -/
def stripChars (l : List Char) : List Char :=
  ((l.dropWhile isSpaceChar).reverse.dropWhile isSpaceChar).reverse

/-- Python `str.strip()`. -/
def pyStrip (s : String) : String := ⟨stripChars s.data⟩

/-! ### The classifier data model

`src/backend/app/services/classifier.py`.  A transaction as loaded by
`load_unclassified_transactions` (the eight selected columns); dates are
modelled as integers (`pd.to_datetime` is monotone and injective on the ISO
date strings stored by the importer, so only their ordering matters); the
`amount` REAL column is modelled as `Rat`. -/
structure Tx where
  transaction_id : String
  date : Int
  transaction_type : String
  amount : Rat
  currency : String
  description : Option String
  country : Option String
  city : Option String
  deriving Repr, DecidableEq

/-- A parsed JSON condition specification: the recognized keys of
`apply_conditions`, each `none` when absent from the parsed dict.  Unrecognized
keys of the dict are never read by `apply_conditions` and therefore do not
appear in the model. -/
structure Conditions where
  min_amount : Option Rat := none
  max_amount : Option Rat := none
  amount_range : Option (Rat × Rat) := none
  amount_sign : Option String := none
  effective_from : Option Int := none
  effective_to : Option Int := none
  transaction_type : Option (List String) := none
  country : Option (List String) := none
  city : Option (List String) := none
  currency : Option (List String) := none
  not_contains : Option (List String) := none
  must_contain_any : Option (List String) := none
  must_contain_all : Option (List String) := none
  deriving Repr, DecidableEq

/-- Pandas `Series.isin` on a nullable string column: a missing value is in no
string list. -/
def optIsin (cell : Option String) (vals : List String) : Bool :=
  match cell with
  | none => false
  | some s => vals.contains s

/-- One row of `apply_conditions` (classifier.py lines 10-64): each recognized
key present in the spec narrows the running mask value `m` by conjunction with
its predicate, in the order the source applies them.  The four `isin` keys are
guarded in the source by `col in dft.columns`, which always holds for the
DataFrame produced by `load_unclassified_transactions`. -/
def condNarrowRow (c : Conditions) (t : Tx) (m : Bool) : Bool :=
  let m := match c.min_amount with
    | some v => m && decide (v ≤ t.amount)
    | none => m
  let m := match c.max_amount with
    | some v => m && decide (t.amount ≤ v)
    | none => m
  let m := match c.amount_range with
    | some (lo, hi) => m && (decide (lo ≤ t.amount) && decide (t.amount ≤ hi))
    | none => m
  let m := match c.amount_sign with
    | some s =>
      if s = "negative" then m && decide (t.amount < 0)
      else if s = "positive" then m && decide (0 < t.amount)
      else m
    | none => m
  let m := match c.effective_from with
    | some d => m && decide (d ≤ t.date)
    | none => m
  let m := match c.effective_to with
    | some d => m && decide (t.date ≤ d)
    | none => m
  let m := match c.transaction_type with
    | some vs => m && vs.contains t.transaction_type
    | none => m
  let m := match c.country with
    | some vs => m && optIsin t.country vs
    | none => m
  let m := match c.city with
    | some vs => m && optIsin t.city vs
    | none => m
  let m := match c.currency with
    | some vs => m && vs.contains t.currency
    | none => m
  let m := match c.not_contains with
    | some vs => m && vs.all (fun v => !(optContainsCI t.description v))
    | none => m
  let m := match c.must_contain_any with
    | some vs => m && vs.any (fun v => optContainsCI t.description v)
    | none => m
  let m := match c.must_contain_all with
    | some vs => m && vs.all (fun v => optContainsCI t.description v)
    | none => m
  m

/-- `apply_conditions(mask, dft, conditions)` (classifier.py lines 10-64).
`none` models the Python `None` (and the empty dict, both falsy in the
source's early return); otherwise every present key narrows the mask by
logical AND row by row. -/
def apply_conditions (mask : List Bool) (txs : List Tx) (c : Option Conditions) :
    List Bool :=
  match c with
  | none => mask
  | some c => List.zipWith (fun t m => condNarrowRow c t m) txs mask

/-- A rule row as loaded by `load_rules` (classifier.py lines 167-185). -/
structure Rule where
  id : Int
  pattern : String
  match_type : String
  source_column : String
  merchant : Option String
  category : Option String
  subcategory : Option String
  conditions : Option String
  priority : Int
  deriving Repr, DecidableEq

/-- A working row of the classification DataFrame inside `apply_rules`: the
loaded transaction plus the four output columns the engine adds (initialised
to `None`, classifier.py lines 77-80). -/
structure TxRow where
  tx : Tx
  merchant : Option String := none
  category : Option String := none
  subcategory : Option String := none
  rule_id : Option Int := none
  deriving Repr, DecidableEq

/-- The read-only transaction columns of the working DataFrame that hold
strings. -/
def txCols : List String :=
  ["transaction_id", "transaction_type", "currency", "description", "country", "city"]

/-- String-valued cell of a loaded transaction, by column name. -/
def getTxCol (t : Tx) : String → Option String
  | "transaction_id" => some t.transaction_id
  | "transaction_type" => some t.transaction_type
  | "currency" => some t.currency
  | "description" => t.description
  | "country" => t.country
  | "city" => t.city
  | _ => none

/-- The string-valued columns of the working DataFrame on which a rule's
`source_column` pattern match is defined.  The DataFrame also has the `date`,
`amount` and `rule_id` columns; a rule naming one of those would make the
source raise from `.str` access on a non-string column, a failure mode outside
the embedded claims, so the model treats only the string columns as
matchable. -/
def stringCols : List String :=
  txCols ++ ["merchant", "category", "subcategory"]

/-- String-valued cell of a working row, by column name (the three mutable
output string columns shadow nothing in `txCols`). -/
def getCol (r : TxRow) (c : String) : Option String :=
  if c = "merchant" then r.merchant
  else if c = "category" then r.category
  else if c = "subcategory" then r.subcategory
  else getTxCol r.tx c

/-- The base pattern match of one rule (classifier.py lines 94-112), as a
per-row predicate.  Result `none` means the source's `continue`: the rule is
skipped for the run.  `rc` abstracts Python regex compilation: `rc p = none`
models `re.error` on pattern `p`. -/
def ruleMatcher (rc : String → Option (String → Bool)) (rule : Rule) :
    Option (TxRow → Bool) :=
  if rule.match_type = "contains" then
    some (fun r => optContainsCI (getCol r rule.source_column) rule.pattern)
  else if rule.match_type = "regex" then
    match rc rule.pattern with
    | none => none
    | some f =>
      some (fun r =>
        match getCol r rule.source_column with
        | none => false
        | some s => f s)
  else none

/-- Parsing of one rule's `conditions` string (classifier.py lines 114-121).
Result `none` means the rule is skipped (`json.JSONDecodeError`); result
`some cs` is the parsed spec handed to `apply_conditions` (`cs = none` when
the column is NULL or blank).  `pc` abstracts `json.loads`. -/
def ruleConds (pc : String → Option Conditions) (rule : Rule) :
    Option (Option Conditions) :=
  match rule.conditions with
  | none => some none
  | some s =>
    if pyStrip s = "" then some none
    else
      match pc s with
      | none => none
      | some c => some (some c)

/-- `apply_conditions` on one row for an optional parsed spec. -/
def condNarrowOpt (c : Option Conditions) (t : Tx) (m : Bool) : Bool :=
  match c with
  | none => m
  | some c => condNarrowRow c t m

theorem zipWith_keep_right {α : Type} (txs : List α) (mask : List Bool)
    (h : mask.length = txs.length) :
    List.zipWith (fun _ m => m) txs mask = mask := by
  induction txs generalizing mask with
  | nil =>
    cases mask with
    | nil => rfl
    | cons m ms => exact absurd h (by simp)
  | cons t ts ih =>
    cases mask with
    | nil => exact absurd h (by simp)
    | cons m ms =>
      simp only [List.zipWith]
      rw [ih ms (by simpa using h)]

/-- The list-level `apply_conditions` is exactly the row-level narrowing
zipped over the rows. -/
theorem apply_conditions_eq_zipWith (mask : List Bool) (txs : List Tx)
    (c : Option Conditions) (h : mask.length = txs.length) :
    apply_conditions mask txs c =
      List.zipWith (fun t m => condNarrowOpt c t m) txs mask := by
  cases c with
  | none => exact (zipWith_keep_right txs mask h).symm
  | some c => rfl

/-- The single assignment point of the engine (classifier.py lines 131-134):
overwrite the four output columns of a row from the rule. -/
def assignRule (rule : Rule) (r : TxRow) : TxRow :=
  { r with
    merchant := rule.merchant
    category := rule.category
    subcategory := rule.subcategory
    rule_id := some rule.id }

/-- The effect of one rule on one row (classifier.py lines 126-134): rows in
the final mask that still have `rule_id` unset get the rule's values, every
other row is untouched. -/
def ruleRowUpdate (rule : Rule) (conds : Option Conditions) (bf : TxRow → Bool)
    (r : TxRow) : TxRow :=
  if condNarrowOpt conds r.tx (bf r) && r.rule_id.isNone then assignRule rule r
  else r

/-- The per-row action of one iteration of the rule loop (classifier.py lines
89-134): `none` is the source's `continue` — the rule is skipped when its
source column is not a (string) column of the DataFrame, when its
`match_type` is unknown, when its regex does not compile, or when its
conditions do not parse.  Otherwise the rule acts on every row
independently. -/
def ruleAction (rc : String → Option (String → Bool))
    (pc : String → Option Conditions) (rule : Rule) : Option (TxRow → TxRow) :=
  if stringCols.contains rule.source_column = false then none
  else
    match ruleMatcher rc rule with
    | none => none
    | some bf =>
      match ruleConds pc rule with
      | none => none
      | some conds => some (ruleRowUpdate rule conds bf)

/-- One iteration of the rule loop on the row list. -/
def applyRuleStep (rc : String → Option (String → Bool))
    (pc : String → Option Conditions) (rows : List TxRow) (rule : Rule) :
    List TxRow :=
  match ruleAction rc pc rule with
  | none => rows
  | some f => rows.map f

/-- The rule loop of `apply_rules` over an already sorted rule list. -/
def applyRulesLoop (rc : String → Option (String → Bool))
    (pc : String → Option Conditions) (rows : List TxRow) (rules : List Rule) :
    List TxRow :=
  rules.foldl (applyRuleStep rc pc) rows

/-- `dfr.sort_values("priority", ascending=False)` (classifier.py line 86).
pandas `nargsort` handles `ascending=False` by reversing the values and
their indices *before* the ascending argsort and reversing the resulting
indexer *after* (a double reversal introduced for pandas GH 6399 precisely
so that descending sorts are stable).  The net order is therefore a stable
descending sort: highest priority first, and rules of equal priority in
their original order.  Modelled as the stable insertion sort ascending by
the negated priority. -/
def sort_values_priority_desc (rules : List Rule) : List Rule :=
  insSortKey (fun r => -r.priority) rules

/-- A freshly loaded working row: the four output columns hold `None`
(classifier.py lines 77-80). -/
def initRow (t : Tx) : TxRow := { tx := t }

/-- `apply_rules(dft, dfr)` (classifier.py lines 71-136): add the four output
columns as `None`, sort the rules by priority descending, and run the rule
loop.  (`dft["date"] = pd.to_datetime(...)` is the identity on the integer
date model.) -/
def apply_rules (rc : String → Option (String → Bool))
    (pc : String → Option Conditions) (rules : List Rule) (txs : List Tx) :
    List TxRow :=
  applyRulesLoop rc pc (txs.map initRow) (sort_values_priority_desc rules)

/-! ### Structural lemmas about the rule engine -/

/-- The per-row function applied by one loop iteration (identity when the
rule is skipped). -/
def ruleStepFn (rc : String → Option (String → Bool))
    (pc : String → Option Conditions) (rule : Rule) : TxRow → TxRow :=
  match ruleAction rc pc rule with
  | none => id
  | some f => f

/-- The whole rule loop acting on one row: the rows of the DataFrame are
updated independently of each other. -/
def rowLoop (rc : String → Option (String → Bool))
    (pc : String → Option Conditions) (rules : List Rule) (r : TxRow) : TxRow :=
  rules.foldl (fun r rule => ruleStepFn rc pc rule r) r

theorem applyRuleStep_eq_map (rc : String → Option (String → Bool))
    (pc : String → Option Conditions) (rows : List TxRow) (rule : Rule) :
    applyRuleStep rc pc rows rule = rows.map (ruleStepFn rc pc rule) := by
  unfold applyRuleStep ruleStepFn
  cases ruleAction rc pc rule with
  | none => simp
  | some f => rfl

theorem applyRulesLoop_eq_map (rc : String → Option (String → Bool))
    (pc : String → Option Conditions) (rows : List TxRow) (rules : List Rule) :
    applyRulesLoop rc pc rows rules = rows.map (rowLoop rc pc rules) := by
  induction rules generalizing rows with
  | nil =>
    have h0 : rowLoop rc pc [] = id := rfl
    rw [h0, List.map_id]
    rfl
  | cons rule rest ih =>
    show applyRulesLoop rc pc (applyRuleStep rc pc rows rule) rest = _
    rw [ih, applyRuleStep_eq_map, List.map_map]
    rfl

theorem ruleRowUpdate_of_isSome (rule : Rule) (conds : Option Conditions)
    (bf : TxRow → Bool) (r : TxRow) (h : r.rule_id.isSome) :
    ruleRowUpdate rule conds bf r = r := by
  have hn : r.rule_id.isNone = false := by
    cases hr : r.rule_id with
    | none => rw [hr] at h; exact absurd h (by simp)
    | some v => rfl
  simp [ruleRowUpdate, hn]

/-- An already assigned row is never touched again: the assignment mask
requires `rule_id` to be unset (classifier.py line 127). -/
theorem ruleStepFn_of_isSome (rc : String → Option (String → Bool))
    (pc : String → Option Conditions) (rule : Rule) (r : TxRow)
    (h : r.rule_id.isSome) : ruleStepFn rc pc rule r = r := by
  unfold ruleStepFn ruleAction
  by_cases hc : stringCols.contains rule.source_column = false
  · rw [if_pos hc]; rfl
  · rw [if_neg hc]
    cases hm : ruleMatcher rc rule with
    | none => rfl
    | some bf =>
      cases hcs : ruleConds pc rule with
      | none => rfl
      | some conds => exact ruleRowUpdate_of_isSome rule conds bf r h

theorem rowLoop_of_isSome (rc : String → Option (String → Bool))
    (pc : String → Option Conditions) (rules : List Rule) (r : TxRow)
    (h : r.rule_id.isSome) : rowLoop rc pc rules r = r := by
  induction rules with
  | nil => rfl
  | cons rule rest ih =>
    show rowLoop rc pc rest (ruleStepFn rc pc rule r) = r
    rw [ruleStepFn_of_isSome rc pc rule r h]
    exact ih

/-- Row `row` carries exactly the values the single assignment point writes
for `rule`. -/
def assignedBy (rule : Rule) (row : TxRow) : Prop :=
  row.merchant = rule.merchant ∧ row.category = rule.category ∧
    row.subcategory = rule.subcategory ∧ row.rule_id = some rule.id

theorem ruleStepFn_cases (rc : String → Option (String → Bool))
    (pc : String → Option Conditions) (rule : Rule) (r : TxRow) :
    ruleStepFn rc pc rule r = r ∨
      (r.rule_id = none ∧ ruleStepFn rc pc rule r = assignRule rule r) := by
  unfold ruleStepFn ruleAction
  by_cases hc : stringCols.contains rule.source_column = false
  · left; rw [if_pos hc]; rfl
  · rw [if_neg hc]
    cases hm : ruleMatcher rc rule with
    | none => left; rfl
    | some bf =>
      cases hcs : ruleConds pc rule with
      | none => left; rfl
      | some conds =>
        show ruleRowUpdate rule conds bf r = r ∨
          (r.rule_id = none ∧ ruleRowUpdate rule conds bf r = assignRule rule r)
        unfold ruleRowUpdate
        by_cases hif : (condNarrowOpt conds r.tx (bf r) && r.rule_id.isNone) = true
        · right
          refine ⟨?_, ?_⟩
          · rw [Bool.and_eq_true] at hif
            exact Option.isNone_iff_eq_none.mp hif.2
          · rw [if_pos hif]
        · left; rw [if_neg hif]

theorem ruleStepFn_tx (rc : String → Option (String → Bool))
    (pc : String → Option Conditions) (rule : Rule) (r : TxRow) :
    (ruleStepFn rc pc rule r).tx = r.tx := by
  rcases ruleStepFn_cases rc pc rule r with h | ⟨-, h⟩
  · rw [h]
  · rw [h]; rfl

theorem rowLoop_tx (rc : String → Option (String → Bool))
    (pc : String → Option Conditions) (rules : List Rule) (r : TxRow) :
    (rowLoop rc pc rules r).tx = r.tx := by
  induction rules generalizing r with
  | nil => rfl
  | cons rule rest ih =>
    show (rowLoop rc pc rest (ruleStepFn rc pc rule r)).tx = r.tx
    rw [ih, ruleStepFn_tx]

theorem rowLoop_append (rc : String → Option (String → Bool))
    (pc : String → Option Conditions) (l1 l2 : List Rule) (r : TxRow) :
    rowLoop rc pc (l1 ++ l2) r = rowLoop rc pc l2 (rowLoop rc pc l1 r) :=
  List.foldl_append ..

/-- Either the whole run leaves a row untouched, or the row ends carrying the
values of one of the run's rules. -/
theorem rowLoop_cases (rc : String → Option (String → Bool))
    (pc : String → Option Conditions) (rules : List Rule) (r : TxRow) :
    rowLoop rc pc rules r = r ∨
      ∃ rule ∈ rules, assignedBy rule (rowLoop rc pc rules r) := by
  induction rules generalizing r with
  | nil => left; rfl
  | cons rule rest ih =>
    show rowLoop rc pc rest (ruleStepFn rc pc rule r) = r ∨
      ∃ ru ∈ rule :: rest, assignedBy ru (rowLoop rc pc rest (ruleStepFn rc pc rule r))
    rcases ruleStepFn_cases rc pc rule r with h | ⟨hnone, h⟩
    · rw [h]
      rcases ih r with h2 | ⟨ru, hru, h2⟩
      · left; exact h2
      · right; exact ⟨ru, List.mem_cons_of_mem rule hru, h2⟩
    · rw [h, rowLoop_of_isSome rc pc rest (assignRule rule r) (by rfl)]
      right
      exact ⟨rule, List.mem_cons_self rule rest, rfl, rfl, rfl, rfl⟩

/-! ### Static rule matching

A rule whose `source_column` is one of the read-only transaction columns
matches a row independently of the engine's mutable output columns. -/

theorem getCol_of_txCol {c : String} (hc : c ∈ txCols) (r : TxRow) :
    getCol r c = getTxCol r.tx c := by
  simp only [txCols, List.mem_cons, List.not_mem_nil, or_false] at hc
  rcases hc with rfl | rfl | rfl | rfl | rfl | rfl <;> rfl

theorem stringCols_contains_of_txCol {c : String} (hc : c ∈ txCols) :
    stringCols.contains c = true := by
  have hm : c ∈ stringCols := List.mem_append_left _ hc
  exact List.elem_eq_true_of_mem hm

/-- Does `rule` (pattern plus conditions) hit the transaction `t`, evaluated
on a fresh unassigned row?  `false` also covers every skip case. -/
def ruleHitsB (rc : String → Option (String → Bool))
    (pc : String → Option Conditions) (rule : Rule) (t : Tx) : Bool :=
  txCols.contains rule.source_column &&
    match ruleMatcher rc rule with
    | none => false
    | some bf =>
      match ruleConds pc rule with
      | none => false
      | some conds => condNarrowOpt conds t (bf (initRow t))

theorem initRow_tx (t : Tx) : (initRow t).tx = t := rfl

theorem ruleMatcher_static (rc : String → Option (String → Bool))
    (rule : Rule) (bf : TxRow → Bool) (hc : rule.source_column ∈ txCols)
    (hm : ruleMatcher rc rule = some bf) (r : TxRow) :
    bf r = bf (initRow r.tx) := by
  unfold ruleMatcher at hm
  by_cases h1 : rule.match_type = "contains"
  · rw [if_pos h1] at hm
    cases hm
    simp only [getCol_of_txCol hc, initRow_tx]
  · rw [if_neg h1] at hm
    by_cases h2 : rule.match_type = "regex"
    · rw [if_pos h2] at hm
      cases hf : rc rule.pattern with
      | none => rw [hf] at hm; cases hm
      | some f =>
        rw [hf] at hm
        cases hm
        simp only [getCol_of_txCol hc, initRow_tx]
    · rw [if_neg h2] at hm; cases hm

/-- A rule that hits a row's transaction leaves the row assigned (either it
was already assigned, or this rule assigns it now). -/
theorem ruleStepFn_of_hits (rc : String → Option (String → Bool))
    (pc : String → Option Conditions) (rule : Rule) (r : TxRow)
    (hhit : ruleHitsB rc pc rule r.tx = true) :
    (ruleStepFn rc pc rule r).rule_id.isSome := by
  unfold ruleHitsB at hhit
  rw [Bool.and_eq_true] at hhit
  rcases hhit with ⟨hcol, hrest⟩
  have hmem : rule.source_column ∈ txCols := List.mem_of_elem_eq_true hcol
  cases hm : ruleMatcher rc rule with
  | none => rw [hm] at hrest; cases hrest
  | some bf =>
    rw [hm] at hrest
    cases hcs : ruleConds pc rule with
    | none => rw [hcs] at hrest; cases hrest
    | some conds =>
      rw [hcs] at hrest
      have hnarrow : condNarrowOpt conds r.tx (bf r) = true := by
        rw [ruleMatcher_static rc rule bf hmem hm r]
        exact hrest
      unfold ruleStepFn ruleAction
      rw [if_neg (by rw [stringCols_contains_of_txCol hmem]; simp)]
      rw [hm, hcs]
      show (ruleRowUpdate rule conds bf r).rule_id.isSome
      unfold ruleRowUpdate
      rw [hnarrow]
      cases hr : r.rule_id with
      | some v => simp [hr]
      | none => simp [assignRule]

theorem sort_values_priority_desc_sorted (rules : List Rule) :
    (sort_values_priority_desc rules).Pairwise (fun a b => b.priority ≤ a.priority) := by
  unfold sort_values_priority_desc
  have h := insSortKey_pairwise (fun r : Rule => -r.priority) rules
  exact h.imp (fun hab => by omega)

theorem mem_sort_values_priority_desc {r : Rule} {rules : List Rule} :
    r ∈ sort_values_priority_desc rules ↔ r ∈ rules := by
  unfold sort_values_priority_desc
  exact mem_insSortKey

/-- Stability of the stable insertion step, expressed through the filter on
one key value: every element passed over by the insertion walk has a
strictly smaller key, so elements sharing the inserted key keep their
relative order. -/
theorem insKey_filter_key {α : Type} (k : α → Int) (v : Int) (a : α)
    (l : List α) :
    (insKey k a l).filter (fun x => k x == v) =
      (a :: l).filter (fun x => k x == v) := by
  induction l with
  | nil => rfl
  | cons b bs ih =>
    show (if k b < k a then b :: insKey k a bs else a :: b :: bs).filter
      (fun x => k x == v) = _
    by_cases hlt : k b < k a
    · rw [if_pos hlt]
      simp only [List.filter_cons]
      rw [ih]
      simp only [List.filter_cons]
      by_cases hb : (k b == v) = true
      · by_cases ha : (k a == v) = true
        · exfalso
          have hb2 : k b = v := by rwa [beq_iff_eq] at hb
          have ha2 : k a = v := by rwa [beq_iff_eq] at ha
          omega
        · simp [hb, ha]
      · by_cases ha : (k a == v) = true
        · simp [hb, ha]
        · simp [hb, ha]
    · rw [if_neg hlt]

/-- Stability of the stable insertion sort: the elements carrying any fixed
key value appear in the sorted list in their original order. -/
theorem insSortKey_filter_key {α : Type} (k : α → Int) (v : Int)
    (l : List α) :
    (insSortKey k l).filter (fun x => k x == v) =
      l.filter (fun x => k x == v) := by
  induction l with
  | nil => rfl
  | cons a as ih =>
    show (insKey k a (insSortKey k as)).filter (fun x => k x == v) = _
    rw [insKey_filter_key]
    simp only [List.filter_cons]
    rw [ih]

theorem neg_beq_neg (a b : Int) : ((-a) == (-b)) = (a == b) := by
  by_cases h : a = b
  · rw [h, beq_self_eq_true, beq_self_eq_true]
  · have h2 : ¬(-a = -b) := fun hh => h (by omega)
    rw [beq_eq_false_iff_ne.mpr h, beq_eq_false_iff_ne.mpr h2]

/-- The engine's sort is tie-stable: for every priority value, the rules of
that priority appear in the sorted list exactly in their original load
order. -/
theorem sort_values_priority_desc_stable (rules : List Rule) (p : Int) :
    (sort_values_priority_desc rules).filter (fun r => r.priority == p) =
      rules.filter (fun r => r.priority == p) := by
  unfold sort_values_priority_desc
  have hcongr : ∀ l : List Rule, l.filter (fun r => r.priority == p) =
      l.filter (fun r => (-r.priority) == (-p)) := by
    intro l
    apply List.filter_congr
    intro r _
    rw [neg_beq_neg]
  rw [hcongr, hcongr rules]
  exact insSortKey_filter_key (fun r : Rule => -r.priority) (-p) rules

/-! ### Claims about the rule engine -/

/-- **C3.** In one rule-engine run over any transaction set and any rule set,
every transaction row ends either with exactly one assigned rule id or with
none; no row is ever assigned by two different rules in the same run, because
assignment is restricted to rows whose `rule_id` is still unset.  Formally:
for every decomposition of the evaluated (priority-sorted) rule sequence, a
row already assigned after the first part is returned by the full run exactly
as it stands — no later rule changes its `rule_id` (or any other field). -/
theorem claim_C3_single_assignment (rc : String → Option (String → Bool))
    (pc : String → Option Conditions) (rules : List Rule) (txs : List Tx)
    (L1 L2 : List Rule) (hsplit : sort_values_priority_desc rules = L1 ++ L2)
    (i : Nat) (row : TxRow)
    (h1 : (applyRulesLoop rc pc (txs.map initRow) L1)[i]? = some row)
    (hsome : row.rule_id.isSome) :
    (apply_rules rc pc rules txs)[i]? = some row := by
  rw [applyRulesLoop_eq_map, List.getElem?_map] at h1
  rcases Option.map_eq_some'.mp h1 with ⟨r0, hr0, hrow⟩
  unfold apply_rules
  rw [hsplit, applyRulesLoop_eq_map, List.getElem?_map, hr0]
  show some (rowLoop rc pc (L1 ++ L2) r0) = some row
  rw [rowLoop_append, hrow, rowLoop_of_isSome rc pc L2 row hsome]

def c3tx : Tx :=
  { transaction_id := "t1", date := 0, transaction_type := "card_payment",
    amount := -10, currency := "PLN", description := some "UBER EATS",
    country := none, city := none }

def c3rule : Rule :=
  { id := 1, pattern := "UBER", match_type := "contains",
    source_column := "description", merchant := some "Uber",
    category := some "Transport", subcategory := none, conditions := none,
    priority := 10 }

def c3row : TxRow :=
  { tx := c3tx, merchant := some "Uber", category := some "Transport",
    subcategory := none, rule_id := some 1 }

theorem claim_C3_witness :
    (apply_rules (fun _ => none) (fun _ => none) [c3rule] [c3tx])[0]? = some c3row :=
  claim_C3_single_assignment (fun _ => none) (fun _ => none) [c3rule] [c3tx]
    [c3rule] [] (by decide) 0 c3row (by decide) (by decide)

/-- A rule with an invalid regex or unparseable conditions never acts: every
`continue` path of the loop body yields no per-row action. -/
theorem ruleAction_malformed_none (rc : String → Option (String → Bool))
    (pc : String → Option Conditions) (rule : Rule)
    (hbad : (rule.match_type = "regex" ∧ rc rule.pattern = none) ∨
      (∃ s, rule.conditions = some s ∧ pyStrip s ≠ "" ∧ pc s = none)) :
    ruleAction rc pc rule = none := by
  unfold ruleAction
  by_cases hc : stringCols.contains rule.source_column = false
  · rw [if_pos hc]
  · rw [if_neg hc]
    rcases hbad with ⟨hmt, hrc⟩ | ⟨s, hs, hne, hpc⟩
    · have hm : ruleMatcher rc rule = none := by
        unfold ruleMatcher
        rw [if_neg (by rw [hmt]; decide), if_pos hmt, hrc]
      simp only [hm]
    · cases hm : ruleMatcher rc rule with
      | none => simp only [hm]
      | some bf =>
        have hcs : ruleConds pc rule = none := by
          unfold ruleConds
          simp only [hs]
          rw [if_neg hne, hpc]
        simp only [hm, hcs]

/-! ### The error path of the rule loop

The working DataFrame also has the non-string columns `date` (datetime64
after `pd.to_datetime`), `amount` (float64) and the engine-managed `rule_id`
object column.  `src_col not in dft.columns` does not exclude them, and the
loop body then evaluates `dft[src_col].str.contains(...)`: the `.str`
accessor raises `AttributeError` on a non-string column, and the loop's
`except` clause catches only `re.error`, so the whole run aborts.  The
fallible engine below models this; the total engine above is its restriction
to runs in which no rule names such a column (see
`applyRulesLoopE_eq_of_no_crash`). -/

/-- All columns of the working DataFrame. -/
def dftCols : List String := stringCols ++ ["date", "amount", "rule_id"]

/-- Does `dft[c].str` raise `AttributeError`?  `date` and `amount` have
non-object dtypes, so the accessor raises regardless of content.  `rule_id`
is an object column holding `None` until the engine assigns integer ids:
all-`None` passes pandas' dtype inference (empty) and matches nothing, while
any present integer id makes the inference non-string and the accessor
raise. -/
def strAccessorRaises (rows : List TxRow) (c : String) : Bool :=
  (c == "date") || (c == "amount") ||
    ((c == "rule_id") && rows.any (fun r => r.rule_id.isSome))

/-- One iteration of the rule loop with the error path (`Except.error ()` is
the uncaught `AttributeError`): a rule naming a `.str`-inaccessible column
aborts the run when its `match_type` reaches the column access (`contains`
or `regex`; an unknown `match_type` still skips first).  On a `.str`-usable
column the iteration acts as the total step (an all-`None` `rule_id` source
matches no row, which the total step realises by skipping). -/
def applyRuleStepE (rc : String → Option (String → Bool))
    (pc : String → Option Conditions) (rows : List TxRow) (rule : Rule) :
    Except Unit (List TxRow) :=
  if dftCols.contains rule.source_column = false then .ok rows
  else if strAccessorRaises rows rule.source_column then
    if rule.match_type = "contains" ∨ rule.match_type = "regex" then .error ()
    else .ok rows
  else .ok (applyRuleStep rc pc rows rule)

/-- The rule loop with the error path: an exception aborts the remaining
rules (it propagates out of `apply_rules`). -/
def applyRulesLoopE (rc : String → Option (String → Bool))
    (pc : String → Option Conditions) (rows : List TxRow) :
    List Rule → Except Unit (List TxRow)
  | [] => .ok rows
  | rule :: rest =>
    match applyRuleStepE rc pc rows rule with
    | .error e => .error e
    | .ok rows2 => applyRulesLoopE rc pc rows2 rest

theorem stringCols_subset_dftCols {c : String}
    (h : dftCols.contains c = false) : stringCols.contains c = false := by
  by_cases hs : stringCols.contains c = true
  · exfalso
    have hmem : c ∈ stringCols := List.mem_of_elem_eq_true hs
    have hmem2 : c ∈ dftCols := List.mem_append_left _ hmem
    have he : dftCols.contains c = true := List.elem_eq_true_of_mem hmem2
    rw [he] at h
    exact Bool.noConfusion h
  · exact Bool.eq_false_iff.mpr hs

/-- On a rule set in which no rule names one of the raising columns, the run
raises nothing and the fallible engine computes exactly the total engine's
result: the total engine used by the other theorems is the projection of
this one onto non-raising runs. -/
theorem applyRulesLoopE_eq_of_no_crash (rc : String → Option (String → Bool))
    (pc : String → Option Conditions) (rows : List TxRow) (rules : List Rule)
    (h : ∀ rule ∈ rules, ((rule.source_column == "date") ||
      (rule.source_column == "amount") ||
      (rule.source_column == "rule_id")) = false) :
    applyRulesLoopE rc pc rows rules = .ok (applyRulesLoop rc pc rows rules) := by
  induction rules generalizing rows with
  | nil => rfl
  | cons rule rest ih =>
    have hno : ∀ rows2 : List TxRow,
        strAccessorRaises rows2 rule.source_column = false := by
      intro rows2
      unfold strAccessorRaises
      have h1 := h rule (List.mem_cons_self rule rest)
      rw [Bool.or_eq_false_iff, Bool.or_eq_false_iff] at h1
      rw [h1.1.1, h1.1.2, h1.2, Bool.false_and, Bool.false_or, Bool.false_or]
    show (match applyRuleStepE rc pc rows rule with
      | Except.error e => Except.error e
      | Except.ok rows2 => applyRulesLoopE rc pc rows2 rest) = _
    have hrest := fun rows2 =>
      ih rows2 (fun r hr => h r (List.mem_cons_of_mem rule hr))
    by_cases hc : dftCols.contains rule.source_column = false
    · have hstep : applyRuleStepE rc pc rows rule = .ok rows := by
        unfold applyRuleStepE
        rw [if_pos hc]
      rw [hstep]
      have hstepT : applyRuleStep rc pc rows rule = rows := by
        unfold applyRuleStep ruleAction
        rw [if_pos (stringCols_subset_dftCols hc)]
      show applyRulesLoopE rc pc rows rest =
        .ok (applyRulesLoop rc pc (applyRuleStep rc pc rows rule) rest)
      rw [hstepT]
      exact hrest rows
    · have hstep : applyRuleStepE rc pc rows rule =
          .ok (applyRuleStep rc pc rows rule) := by
        unfold applyRuleStepE
        rw [if_neg hc, if_neg (by rw [hno rows]; simp)]
      rw [hstep]
      exact hrest (applyRuleStep rc pc rows rule)

def c9tx : Tx :=
  { transaction_id := "t2", date := 0, transaction_type := "card_payment",
    amount := -5, currency := "PLN", description := some "SHOP", country := none,
    city := none }

def c9badRule : Rule :=
  { id := 8, pattern := "(", match_type := "regex", source_column := "amount",
    merchant := none, category := some "X", subcategory := none,
    conditions := none, priority := 5 }

/-- **C9, counterexample.** A rule whose regex pattern is invalid (every
regex-compilation oracle rejects `"("`) but whose `source_column` is the
float64 `amount` column: the loop body reaches `dft["amount"].str`, which
raises `AttributeError` before the regex is ever compiled; `except re.error`
does not catch it, and the run aborts instead of skipping the rule and
continuing — so such a rule is not "skipped ... with no engine-wide
failure" as the claim states for every rule set. -/
theorem claim_C9_counterexample :
    c9badRule.match_type = "regex" ∧
    (fun _ : String => (none : Option (String → Bool))) c9badRule.pattern =
      none ∧
    applyRulesLoopE (fun _ => none) (fun _ => none) [initRow c9tx]
      (c9badRule :: []) = .error () ∧
    applyRulesLoopE (fun _ => none) (fun _ => none) [initRow c9tx] [] =
      .ok [initRow c9tx] :=
  ⟨rfl, rfl, rfl, rfl⟩

/-- **C9 (amended).** A rule whose `match_type` is `regex` with a pattern
the regex engine rejects, or whose `conditions` string is non-empty but
fails to parse as JSON, *and whose `source_column` is `.str`-accessible*
(not the `date`, `amount` or populated `rule_id` column), is skipped for the
run without assigning anything, and the engine continues with the remaining
rules exactly as if the bad rule were absent.  A malformed rule naming a
non-string column instead raises an uncaught `AttributeError` that aborts
the whole run (see the counterexample). -/
theorem claim_C9_malformed_rule_skipped (rc : String → Option (String → Bool))
    (pc : String → Option Conditions) (rule : Rule) (rest : List Rule)
    (rows : List TxRow)
    (hbad : (rule.match_type = "regex" ∧ rc rule.pattern = none) ∨
      (∃ s, rule.conditions = some s ∧ pyStrip s ≠ "" ∧ pc s = none))
    (hcol : strAccessorRaises rows rule.source_column = false) :
    applyRulesLoopE rc pc rows (rule :: rest) =
      applyRulesLoopE rc pc rows rest := by
  show (match applyRuleStepE rc pc rows rule with
    | Except.error e => Except.error e
    | Except.ok rows2 => applyRulesLoopE rc pc rows2 rest) = _
  have hstep : applyRuleStepE rc pc rows rule = .ok rows := by
    unfold applyRuleStepE
    by_cases hc : dftCols.contains rule.source_column = false
    · rw [if_pos hc]
    · rw [if_neg hc, if_neg (by rw [hcol]; simp)]
      have hactnone := ruleAction_malformed_none rc pc rule hbad
      unfold applyRuleStep
      rw [hactnone]
  rw [hstep]

def c9rule : Rule :=
  { id := 7, pattern := "(", match_type := "regex", source_column := "description",
    merchant := none, category := some "X", subcategory := none,
    conditions := none, priority := 5 }

theorem claim_C9_witness :
    applyRulesLoopE (fun _ => none) (fun _ => none) [initRow c9tx]
        (c9rule :: []) =
      applyRulesLoopE (fun _ => none) (fun _ => none) [initRow c9tx] [] :=
  claim_C9_malformed_rule_skipped (fun _ => none) (fun _ => none) c9rule []
    [initRow c9tx] (Or.inl ⟨rfl, rfl⟩) (by decide)

theorem getElem?_zipWith {α β γ : Type} (f : α → β → γ) (as : List α)
    (bs : List β) (i : Nat) (ha : i < as.length) (hb : i < bs.length) :
    (List.zipWith f as bs)[i]? = some (f as[i] bs[i]) := by
  induction as generalizing bs i with
  | nil => exact absurd ha (by simp)
  | cons a as ih =>
    cases bs with
    | nil => exact absurd hb (by simp)
    | cons b bs =>
      cases i with
      | zero => simp
      | succ j =>
        have ha2 : j < as.length := by simpa using ha
        have hb2 : j < bs.length := by simpa using hb
        simpa using ih bs j ha2 hb2

/-- The condition spec of claim C8. -/
def c8spec : Conditions :=
  { min_amount := some (-50), amount_sign := some "negative" }

theorem condNarrowRow_c8spec (t : Tx) (m : Bool) :
    condNarrowRow c8spec t m =
      ((m && decide ((-50 : Rat) ≤ t.amount)) && decide (t.amount < 0)) := rfl

/-- **C8.** For every transaction set and every starting mask, evaluating the
condition spec with `min_amount = -50` and `amount_sign = "negative"` narrows
the mask to exactly the transactions whose amount lies in `[-50, 0)`:
`min_amount` keeps `amount ≥ -50` and `amount_sign "negative"` keeps
`amount < 0`, conjoined with the incoming mask. -/
theorem claim_C8_min_amount_negative (mask : List Bool) (txs : List Tx)
    (i : Nat) (h1 : i < mask.length) (h2 : i < txs.length) :
    (apply_conditions mask txs (some c8spec))[i]? =
      some ((mask[i] && decide ((-50 : Rat) ≤ (txs[i]).amount)) &&
        decide ((txs[i]).amount < 0)) ∧
    ((apply_conditions mask txs (some c8spec))[i]? = some true ↔
      (mask[i] = true ∧ (-50 : Rat) ≤ (txs[i]).amount ∧ (txs[i]).amount < 0)) := by
  have heq : (apply_conditions mask txs (some c8spec))[i]? =
      some ((mask[i] && decide ((-50 : Rat) ≤ (txs[i]).amount)) &&
        decide ((txs[i]).amount < 0)) := by
    show (List.zipWith (fun t m => condNarrowRow c8spec t m) txs mask)[i]? = _
    rw [getElem?_zipWith _ txs mask i h2 h1, condNarrowRow_c8spec]
  refine ⟨heq, ?_⟩
  rw [heq]
  constructor
  · intro h
    have hb : ((mask[i] && decide ((-50 : Rat) ≤ (txs[i]).amount)) &&
        decide ((txs[i]).amount < 0)) = true := by
      injection h
    rw [Bool.and_eq_true, Bool.and_eq_true] at hb
    exact ⟨hb.1.1, of_decide_eq_true hb.1.2, of_decide_eq_true hb.2⟩
  · intro h
    rcases h with ⟨hm, hge, hlt⟩
    rw [hm, decide_eq_true hge, decide_eq_true hlt]
    rfl

def c8tx : Tx :=
  { transaction_id := "t4", date := 0, transaction_type := "card_payment",
    amount := -25, currency := "PLN", description := some "SHOP", country := none,
    city := none }

theorem claim_C8_witness :
    (apply_conditions [true] [c8tx] (some c8spec))[0]? = some true ↔
      (([true][0] : Bool) = true ∧ (-50 : Rat) ≤ ([c8tx][0]).amount ∧
        ([c8tx][0]).amount < 0) :=
  (claim_C8_min_amount_negative [true] [c8tx] 0 (by decide) (by decide)).2

def c4tx : Tx :=
  { transaction_id := "t3", date := 0, transaction_type := "card_payment",
    amount := -10, currency := "PLN", description := some "UBER EATS",
    country := none, city := none }

/-- **C4.** In every rule-engine run, rules are evaluated in order of
priority descending, and for any two rules of equal priority the one earlier
in the original load order is evaluated first — pandas `nargsort` reverses
the values before and the indexer after the stable ascending argsort
(pandas GH 6399), so the descending sort is tie-stable.  The first conjunct
is the descending evaluation order; the second is stability, stated as: for
every priority value the rules of that priority appear in the evaluated
sequence exactly in load order.  Consequently (third conjunct) a transaction
matched by a rule `r1` whose `source_column` is a transaction column ends
the run assigned by some rule of priority at least `r1.priority` and carries
that rule's category — never the lower-priority rule `r2`. -/
theorem claim_C4_priority_order (rc : String → Option (String → Bool))
    (pc : String → Option Conditions) (rules : List Rule) (txs : List Tx)
    (r1 r2 : Rule) (hr1 : r1 ∈ rules) (hr2 : r2 ∈ rules)
    (hp : r2.priority < r1.priority) (i : Nat) (t : Tx)
    (ht : txs[i]? = some t) (hhit : ruleHitsB rc pc r1 t = true) :
    (sort_values_priority_desc rules).Pairwise
      (fun a b => b.priority ≤ a.priority) ∧
    (∀ p : Int, (sort_values_priority_desc rules).filter
        (fun r => r.priority == p) =
      rules.filter (fun r => r.priority == p)) ∧
    ∃ r3 ∈ rules, r2.priority < r3.priority ∧
      ∃ row, (apply_rules rc pc rules txs)[i]? = some row ∧ assignedBy r3 row := by
  refine ⟨sort_values_priority_desc_sorted rules,
    sort_values_priority_desc_stable rules, ?_⟩
  have hr1L : r1 ∈ sort_values_priority_desc rules :=
    mem_sort_values_priority_desc.mpr hr1
  rcases List.append_of_mem hr1L with ⟨A, B, hAB⟩
  have htx : (rowLoop rc pc A (initRow t)).tx = t := by
    rw [rowLoop_tx]
    rfl
  have hstep : rowLoop rc pc (A ++ [r1]) (initRow t) =
      ruleStepFn rc pc r1 (rowLoop rc pc A (initRow t)) := by
    rw [rowLoop_append]
    rfl
  have hsome : (rowLoop rc pc (A ++ [r1]) (initRow t)).rule_id.isSome := by
    rw [hstep]
    exact ruleStepFn_of_hits rc pc r1 _ (by rw [htx]; exact hhit)
  have hfix : rowLoop rc pc (sort_values_priority_desc rules) (initRow t) =
      rowLoop rc pc (A ++ [r1]) (initRow t) := by
    rw [hAB]
    have h2 : A ++ r1 :: B = (A ++ [r1]) ++ B := by simp
    rw [h2, rowLoop_append]
    exact rowLoop_of_isSome rc pc B _ hsome
  have hout : (apply_rules rc pc rules txs)[i]? =
      some (rowLoop rc pc (A ++ [r1]) (initRow t)) := by
    unfold apply_rules
    rw [applyRulesLoop_eq_map, List.getElem?_map, List.getElem?_map, ht]
    show some (rowLoop rc pc (sort_values_priority_desc rules) (initRow t)) = _
    rw [hfix]
  rcases rowLoop_cases rc pc (A ++ [r1]) (initRow t) with hid | ⟨r3, hr3, hass⟩
  · rw [hid] at hsome
    exact absurd hsome (by simp [initRow])
  · refine ⟨r3, ?_, ?_, rowLoop rc pc (A ++ [r1]) (initRow t), hout, hass⟩
    · apply mem_sort_values_priority_desc.mp
      rw [hAB]
      rcases List.mem_append.mp hr3 with h | h
      · exact List.mem_append_left _ h
      · rcases List.mem_singleton.mp h with rfl
        exact List.mem_append_right _ (List.mem_cons_self _ _)
    · rcases List.mem_append.mp hr3 with h | h
      · have hpair := sort_values_priority_desc_sorted rules
        rw [hAB] at hpair
        rcases List.pairwise_append.mp hpair with ⟨-, -, hcross⟩
        have hle := hcross r3 h r1 (List.mem_cons_self _ _)
        omega
      · rcases List.mem_singleton.mp h with rfl
        exact hp

def c4w1 : Rule :=
  { id := 11, pattern := "UBER", match_type := "contains",
    source_column := "description", merchant := some "Uber",
    category := some "Transport", subcategory := none, conditions := none,
    priority := 20 }

def c4w2 : Rule :=
  { id := 12, pattern := "U", match_type := "contains",
    source_column := "description", merchant := none,
    category := some "Other", subcategory := none, conditions := none,
    priority := 10 }

theorem claim_C4_witness :
    ∃ r3 ∈ [c4w1, c4w2], c4w2.priority < r3.priority ∧
      ∃ row, (apply_rules (fun _ => none) (fun _ => none) [c4w1, c4w2]
        [c4tx])[0]? = some row ∧ assignedBy r3 row :=
  (claim_C4_priority_order (fun _ => none) (fun _ => none) [c4w1, c4w2]
    [c4tx] c4w1 c4w2 (by decide) (by decide) (by decide) 0 c4tx (by decide)
    (by decide)).2.2

/-! ### The classification store

The `transaction_classifications` table and its two write paths: the bulk
rule-based save (`classifier.py`: `save_classifications`, `run_classification`)
and the manual categorize endpoint
(`transactions.py`: `categorize_transaction`). -/

/-- One row of the `transaction_classifications` table.  The bulk rule-based
insert (classifier.py lines 231-237) does not write `category_id` (it stays
NULL); the manual endpoint writes it. -/
structure CRec where
  transaction_id : String
  category : Option String
  subcategory : Option String
  merchant : Option String
  category_id : Option Int := none
  method : String
  rule_id : Option Int
  is_current : Bool
  deriving Repr, DecidableEq

/-- Does the store hold a current classification record for `tid`?  This is
the `is_current = 1` join condition used by the loaders. -/
def hasCurrent (db : List CRec) (tid : String) : Bool :=
  db.any (fun r => r.transaction_id == tid && r.is_current)

/-- `load_unclassified_transactions` (classifier.py lines 143-164): LEFT JOIN
the transactions table against current classifications, keep exactly the
transactions with no current record, `ORDER BY t.date DESC` (modelled as a
stable descending sort on the date; SQLite does not specify the tie order,
and none of the proved properties depends on it). -/
def load_unclassified_transactions (txs : List Tx) (db : List CRec) : List Tx :=
  insSortKey (fun t => -t.date)
    (txs.filter (fun t => !(hasCurrent db t.transaction_id)))

/-- The record inserted by the bulk rule-based save for one classified row
(classifier.py lines 219-237): `method = "rule"`, `is_current = 1`, no
`category_id`. -/
def ruleRec (r : TxRow) : CRec :=
  { transaction_id := r.tx.transaction_id, category := r.category,
    subcategory := r.subcategory, merchant := r.merchant, category_id := none,
    method := "rule", rule_id := r.rule_id, is_current := true }

/-- `save_classifications` (classifier.py lines 188-242): keep the rows with
an assigned `rule_id`, drop the rows whose `category` is NULL (a required
column of the table), and bulk-insert one record per remaining row.  The
source's first row-building loop is dead code overwritten by the second; only
the second is modelled.  The returned statistics dict does not affect the
store and is omitted. -/
def save_classifications (db : List CRec) (df : List TxRow) : List CRec :=
  db ++ ((df.filter (fun r => r.rule_id.isSome)).filter
    (fun r => r.category.isSome)).map ruleRec

/-- `run_classification` (classifier.py lines 244-277) with `dry_run = False`:
load the unclassified transactions; if none, stop; run the rules; if at least
one row was classified, save (one transaction: BEGIN / commit). -/
def run_classification (rc : String → Option (String → Bool))
    (pc : String → Option Conditions) (txs : List Tx) (rules : List Rule)
    (db : List CRec) : List CRec :=
  if (load_unclassified_transactions txs db).length = 0 then db
  else
    if 0 < ((apply_rules rc pc rules
        (load_unclassified_transactions txs db)).filter
          (fun r => r.rule_id.isSome)).length then
      save_classifications db
        (apply_rules rc pc rules (load_unclassified_transactions txs db))
    else db

/-- The manual endpoint's `UPDATE ... SET is_current = 0 WHERE
transaction_id = ? AND is_current = 1`, on one record. -/
def flipCurrent (tid : String) (r : CRec) : CRec :=
  if r.transaction_id == tid && r.is_current then { r with is_current := false }
  else r

/-- The record inserted by the manual endpoint (transactions.py lines
248-258). -/
def manualRec (tid : String) (c s m : Option String) (cid : Option Int) : CRec :=
  { transaction_id := tid, category := c, subcategory := s, merchant := m,
    category_id := cid, method := "manual", rule_id := none, is_current := true }

/-- `categorize_transaction` (transactions.py lines 219-266), the store part:
in one transaction, set `is_current = 0` on every current record of the
transaction, then insert the new record with `method = "manual"` and
`is_current = 1`.  (The endpoint first checks that the transaction exists and
resolves `category_id` from the category names; the resolved id enters here
as `category_id`.) -/
def categorize_transaction (db : List CRec) (tid : String)
    (category subcategory merchant : Option String)
    (category_id : Option Int) : List CRec :=
  (db.map (flipCurrent tid)) ++ [manualRec tid category subcategory merchant category_id]

/-- A write against the classification store: one of the two write paths. -/
inductive StoreOp
  | manual (tid : String) (category subcategory merchant : Option String)
      (category_id : Option Int)
  | ruleRun (txs : List Tx) (rules : List Rule)

def applyOp (rc : String → Option (String → Bool))
    (pc : String → Option Conditions) (db : List CRec) : StoreOp → List CRec
  | .manual tid c s m cid => categorize_transaction db tid c s m cid
  | .ruleRun txs rules => run_classification rc pc txs rules db

def applyOps (rc : String → Option (String → Bool))
    (pc : String → Option Conditions) (db : List CRec) (ops : List StoreOp) :
    List CRec :=
  ops.foldl (applyOp rc pc) db

/-- Number of current classification records of one transaction. -/
def currentCount (db : List CRec) (tid : String) : Nat :=
  db.countP (fun r => r.transaction_id == tid && r.is_current)

/-- The store invariant: at most one record per transaction has
`is_current = true`. -/
def AtMostOneCurrent (db : List CRec) : Prop :=
  ∀ tid, currentCount db tid ≤ 1

/-- Well-formedness of a write: a rule run reads the `transactions` table, in
which `transaction_id` is the globally unique key, so the ids of the read
rows are pairwise distinct. -/
def OpWF : StoreOp → Prop
  | .manual _ _ _ _ _ => True
  | .ruleRun txs _ => (txs.map (fun t => t.transaction_id)).Nodup

/-! ### Lemmas about the store operations -/

theorem hasCurrent_iff_pos (db : List CRec) (tid : String) :
    hasCurrent db tid = true ↔ 0 < currentCount db tid := by
  unfold hasCurrent currentCount
  rw [List.any_eq_true, List.countP_pos]

theorem apply_rules_tx (rc : String → Option (String → Bool))
    (pc : String → Option Conditions) (rules : List Rule) (txs : List Tx) :
    (apply_rules rc pc rules txs).map (fun r => r.tx) = txs := by
  unfold apply_rules
  rw [applyRulesLoop_eq_map, List.map_map, List.map_map]
  have hmc : List.map (((fun r : TxRow => r.tx) ∘
      rowLoop rc pc (sort_values_priority_desc rules)) ∘ initRow) txs =
      List.map id txs :=
    List.map_congr_left (fun t _ => by
      simp [Function.comp, rowLoop_tx, initRow_tx])
  rw [hmc, List.map_id]

theorem apply_rules_tids (rc : String → Option (String → Bool))
    (pc : String → Option Conditions) (rules : List Rule) (txs : List Tx) :
    (apply_rules rc pc rules txs).map (fun r => r.tx.transaction_id) =
      txs.map (fun t => t.transaction_id) := by
  have h2 : (apply_rules rc pc rules txs).map (fun r => r.tx.transaction_id) =
      ((apply_rules rc pc rules txs).map (fun r => r.tx)).map
        (fun t => t.transaction_id) := by
    rw [List.map_map]
    rfl
  rw [h2, apply_rules_tx]

theorem mem_tx_of_mem_apply_rules {rc : String → Option (String → Bool)}
    {pc : String → Option Conditions} {rules : List Rule} {txs : List Tx}
    {r : TxRow} (h : r ∈ apply_rules rc pc rules txs) : r.tx ∈ txs := by
  have h2 : r.tx ∈ (apply_rules rc pc rules txs).map (fun r => r.tx) :=
    List.mem_map_of_mem _ h
  rwa [apply_rules_tx] at h2

theorem mem_load_unclassified {t : Tx} {txs : List Tx} {db : List CRec} :
    t ∈ load_unclassified_transactions txs db ↔
      t ∈ txs ∧ hasCurrent db t.transaction_id = false := by
  unfold load_unclassified_transactions
  rw [mem_insSortKey, List.mem_filter, Bool.not_eq_true']

theorem load_tids_nodup {txs : List Tx} {db : List CRec}
    (h : (txs.map (fun t => t.transaction_id)).Nodup) :
    ((load_unclassified_transactions txs db).map
      (fun t => t.transaction_id)).Nodup := by
  unfold load_unclassified_transactions
  have hperm := insSortKey_perm (fun t : Tx => -t.date)
    (txs.filter (fun t => !(hasCurrent db t.transaction_id)))
  have hfil : ((txs.filter (fun t => !(hasCurrent db t.transaction_id))).map
      (fun t => t.transaction_id)).Nodup :=
    ((List.filter_sublist txs).map _).nodup h
  exact ((hperm.map _).nodup_iff).mpr hfil

theorem countP_tid_le_one (df : List TxRow) (tid : String)
    (h : (df.map (fun r => r.tx.transaction_id)).Nodup) :
    df.countP (fun r => r.tx.transaction_id == tid) ≤ 1 := by
  induction df with
  | nil =>
    rw [List.countP_nil]
    exact Nat.zero_le 1
  | cons r rest ih =>
    rw [List.map_cons, List.nodup_cons] at h
    rw [List.countP_cons]
    by_cases hr : r.tx.transaction_id == tid
    · have hz : rest.countP (fun x => x.tx.transaction_id == tid) = 0 := by
        rw [List.countP_eq_zero]
        intro x hx hpx
        have hx1 : x.tx.transaction_id = tid := by
          rwa [beq_iff_eq] at hpx
        have hr1 : r.tx.transaction_id = tid := by
          rwa [beq_iff_eq] at hr
        exact h.1 (by
          rw [hr1, ← hx1]
          exact List.mem_map_of_mem _ hx)
      rw [hz, if_pos hr]
    · rw [if_neg hr]
      have := ih h.2
      omega

theorem filter_save_eq (db : List CRec) (df : List TxRow) (tid : String)
    (h : ∀ r ∈ df, r.rule_id.isSome = true → r.category.isSome = true →
      ¬(r.tx.transaction_id = tid)) :
    (save_classifications db df).filter (fun r => r.transaction_id == tid) =
      db.filter (fun r => r.transaction_id == tid) := by
  unfold save_classifications
  rw [List.filter_append]
  have hnil : (((df.filter (fun r => r.rule_id.isSome)).filter
      (fun r => r.category.isSome)).map ruleRec).filter
        (fun r => r.transaction_id == tid) = [] := by
    rw [List.filter_eq_nil]
    intro rec hrec
    rcases List.mem_map.mp hrec with ⟨r, hr, rfl⟩
    rcases List.mem_filter.mp hr with ⟨hr2, hcat⟩
    rcases List.mem_filter.mp hr2 with ⟨hrdf, hrid⟩
    have := h r hrdf hrid hcat
    simpa [ruleRec, beq_iff_eq] using this
  rw [hnil, List.append_nil]

/-- **C2.** A transaction that already has a current classification record
(whatever its method) is completely untouched by a rule-based classification
run, for every rule set: the outer join of
`load_unclassified_transactions` excludes it, so no record for it is read,
flipped or inserted — its classification records are exactly the ones it had
before. -/
theorem claim_C2_frame (rc : String → Option (String → Bool))
    (pc : String → Option Conditions) (txs : List Tx) (rules : List Rule)
    (db : List CRec) (tid : String) (h : hasCurrent db tid = true) :
    (run_classification rc pc txs rules db).filter
        (fun r => r.transaction_id == tid) =
      db.filter (fun r => r.transaction_id == tid) := by
  unfold run_classification
  by_cases h0 : (load_unclassified_transactions txs db).length = 0
  · rw [if_pos h0]
  · rw [if_neg h0]
    by_cases h1 : 0 < ((apply_rules rc pc rules
        (load_unclassified_transactions txs db)).filter
          (fun r => r.rule_id.isSome)).length
    · rw [if_pos h1]
      apply filter_save_eq
      intro r hr _ _ heq
      have htxmem : r.tx ∈ load_unclassified_transactions txs db :=
        mem_tx_of_mem_apply_rules hr
      have hfalse := (mem_load_unclassified.mp htxmem).2
      rw [heq, h] at hfalse
      exact Bool.noConfusion hfalse
    · rw [if_neg h1]

def c2tx : Tx :=
  { transaction_id := "t1", date := 0, transaction_type := "card_payment",
    amount := -10, currency := "PLN", description := some "UBER EATS",
    country := none, city := none }

def c2rec : CRec :=
  { transaction_id := "t1", category := some "Food", subcategory := none,
    merchant := none, category_id := none, method := "manual",
    rule_id := none, is_current := true }

theorem claim_C2_witness :
    (run_classification (fun _ => none) (fun _ => none) [c2tx] [c3rule]
        [c2rec]).filter (fun r => r.transaction_id == "t1") =
      [c2rec].filter (fun r => r.transaction_id == "t1") :=
  claim_C2_frame (fun _ => none) (fun _ => none) [c2tx] [c3rule] [c2rec] "t1"
    (by decide)

/-- Effect of the flip on the current-record predicate of any transaction:
for the flipped transaction it always becomes false; for any other it is
unchanged. -/
theorem p2_flipCurrent (tid tid2 : String) (r : CRec) :
    ((flipCurrent tid r).transaction_id == tid2 &&
      (flipCurrent tid r).is_current) =
      (if tid2 = tid then false
       else (r.transaction_id == tid2 && r.is_current)) := by
  unfold flipCurrent
  by_cases hcond : (r.transaction_id == tid && r.is_current) = true
  · rw [if_pos hcond]
    rw [Bool.and_eq_true, beq_iff_eq] at hcond
    show (r.transaction_id == tid2 && false) = _
    rw [Bool.and_false]
    by_cases ht : tid2 = tid
    · rw [if_pos ht]
    · rw [if_neg ht]
      have hbne : (r.transaction_id == tid2) = false := by
        rw [beq_eq_false_iff_ne, hcond.1]
        exact fun hh => ht hh.symm
      rw [hbne, Bool.false_and]
  · rw [if_neg hcond]
    by_cases ht : tid2 = tid
    · rw [if_pos ht]
      subst ht
      exact Bool.eq_false_iff.mpr (fun hh => hcond hh)
    · rw [if_neg ht]

theorem currentCount_categorize (db : List CRec) (tid : String)
    (c s m : Option String) (cid : Option Int) (tid2 : String) :
    currentCount (categorize_transaction db tid c s m cid) tid2 =
      (if tid2 = tid then 1 else currentCount db tid2) := by
  unfold categorize_transaction currentCount
  rw [List.countP_append, List.countP_map]
  by_cases ht : tid2 = tid
  · rw [if_pos ht]
    subst ht
    have hz : db.countP ((fun r : CRec => r.transaction_id == tid2 &&
        r.is_current) ∘ flipCurrent tid2) = 0 := by
      rw [List.countP_eq_zero]
      intro r hr hp
      rw [Function.comp_apply, p2_flipCurrent, if_pos rfl] at hp
      exact Bool.noConfusion hp
    rw [hz, Nat.zero_add, List.countP_cons, List.countP_nil]
    have hp : ((manualRec tid2 c s m cid).transaction_id == tid2 &&
        (manualRec tid2 c s m cid).is_current) = true := by
      show (tid2 == tid2 && true) = true
      simp
    rw [if_pos hp]
  · rw [if_neg ht]
    have hc : db.countP ((fun r : CRec => r.transaction_id == tid2 &&
        r.is_current) ∘ flipCurrent tid) =
        db.countP (fun r => r.transaction_id == tid2 && r.is_current) :=
      List.countP_congr (fun r _ => by
        rw [Function.comp_apply, p2_flipCurrent, if_neg ht])
    rw [hc, List.countP_cons, List.countP_nil]
    have hp : ((manualRec tid c s m cid).transaction_id == tid2 &&
        (manualRec tid c s m cid).is_current) = false := by
      show (tid == tid2 && true) = false
      rw [Bool.and_true, beq_eq_false_iff_ne]
      exact fun hh => ht hh.symm
    rw [hp]
    simp

theorem atMostOne_categorize (db : List CRec) (tid : String)
    (c s m : Option String) (cid : Option Int) (h : AtMostOneCurrent db) :
    AtMostOneCurrent (categorize_transaction db tid c s m cid) := by
  intro tid2
  rw [currentCount_categorize]
  by_cases ht : tid2 = tid
  · rw [if_pos ht]
  · rw [if_neg ht]
    exact h tid2

theorem countP_ruleRec (l : List TxRow) (tid : String) :
    l.countP ((fun rec : CRec => rec.transaction_id == tid && rec.is_current) ∘
      ruleRec) = l.countP (fun r => r.tx.transaction_id == tid) :=
  List.countP_congr (fun r _ => by simp [ruleRec])

theorem out_tids_nodup (rc : String → Option (String → Bool))
    (pc : String → Option Conditions) (rules : List Rule) (txs : List Tx)
    (db : List CRec) (hnodup : (txs.map (fun t => t.transaction_id)).Nodup) :
    ((apply_rules rc pc rules (load_unclassified_transactions txs db)).map
      (fun r => r.tx.transaction_id)).Nodup := by
  rw [apply_rules_tids]
  exact load_tids_nodup hnodup

theorem atMostOne_ruleRun (rc : String → Option (String → Bool))
    (pc : String → Option Conditions) (txs : List Tx) (rules : List Rule)
    (db : List CRec)
    (hnodup : (txs.map (fun t => t.transaction_id)).Nodup)
    (h : AtMostOneCurrent db) :
    AtMostOneCurrent (run_classification rc pc txs rules db) := by
  intro tid
  unfold run_classification
  by_cases h0 : (load_unclassified_transactions txs db).length = 0
  · rw [if_pos h0]
    exact h tid
  · rw [if_neg h0]
    by_cases h1 : 0 < ((apply_rules rc pc rules
        (load_unclassified_transactions txs db)).filter
          (fun r => r.rule_id.isSome)).length
    · rw [if_pos h1]
      unfold save_classifications currentCount
      rw [List.countP_append, List.countP_map, countP_ruleRec]
      have hsubl : (((apply_rules rc pc rules
          (load_unclassified_transactions txs db)).filter
            (fun r => r.rule_id.isSome)).filter
              (fun r => r.category.isSome)).Sublist
          (apply_rules rc pc rules (load_unclassified_transactions txs db)) :=
        (List.filter_sublist _).trans (List.filter_sublist _)
      by_cases hcur : hasCurrent db tid = true
      · have hz : (((apply_rules rc pc rules
            (load_unclassified_transactions txs db)).filter
              (fun r => r.rule_id.isSome)).filter
                (fun r => r.category.isSome)).countP
            (fun r => r.tx.transaction_id == tid) = 0 := by
          rw [List.countP_eq_zero]
          intro r hr hp
          have hrout := hsubl.subset hr
          have htxmem : r.tx ∈ load_unclassified_transactions txs db :=
            mem_tx_of_mem_apply_rules hrout
          have hfalse := (mem_load_unclassified.mp htxmem).2
          rw [beq_iff_eq] at hp
          rw [hp, hcur] at hfalse
          exact Bool.noConfusion hfalse
        rw [hz, Nat.add_zero]
        exact h tid
      · have h0cnt : currentCount db tid = 0 := by
          rcases Nat.eq_zero_or_pos (currentCount db tid) with hz | hpos
          · exact hz
          · exact absurd ((hasCurrent_iff_pos db tid).mpr hpos) hcur
        have hnn : ((((apply_rules rc pc rules
            (load_unclassified_transactions txs db)).filter
              (fun r => r.rule_id.isSome)).filter
                (fun r => r.category.isSome)).map
            (fun r => r.tx.transaction_id)).Nodup :=
          List.Nodup.sublist (hsubl.map _)
            (out_tids_nodup rc pc rules txs db hnodup)
        have hle := countP_tid_le_one _ tid hnn
        have h0cnt2 : db.countP
            (fun r => r.transaction_id == tid && r.is_current) = 0 := h0cnt
        omega
    · rw [if_neg h1]
      exact h tid

/-- **C1.** Starting from any store satisfying the invariant, after any
sequence of classification-store writes — bulk rule-based saves and manual
categorize operations — at most one classification record per transaction has
`is_current = true`.  The manual path re-establishes the invariant by
flipping before inserting; the rule-based save path inserts records with
`is_current = 1` without flipping, and preserves the invariant because it
only runs on transactions that have no current record (and, per rule run,
inserts at most one record per transaction, the transactions-table ids being
unique). -/
theorem claim_C1_at_most_one_current (rc : String → Option (String → Bool))
    (pc : String → Option Conditions) (db : List CRec) (ops : List StoreOp)
    (hdb : AtMostOneCurrent db) (hwf : ∀ op ∈ ops, OpWF op) :
    AtMostOneCurrent (applyOps rc pc db ops) := by
  induction ops generalizing db with
  | nil => exact hdb
  | cons op rest ih =>
    show AtMostOneCurrent (applyOps rc pc (applyOp rc pc db op) rest)
    apply ih
    · cases op with
      | manual tid c s m cid => exact atMostOne_categorize db tid c s m cid hdb
      | ruleRun txs rules =>
        exact atMostOne_ruleRun rc pc txs rules db
          (hwf _ (List.mem_cons_self _ _)) hdb
    · intro op2 hop2
      exact hwf op2 (List.mem_cons_of_mem _ hop2)

def c1tx : Tx :=
  { transaction_id := "u1", date := 0, transaction_type := "card_payment",
    amount := -10, currency := "PLN", description := some "UBER EATS",
    country := none, city := none }

def c1rule : Rule :=
  { id := 3, pattern := "UBER", match_type := "contains",
    source_column := "description", merchant := some "Uber",
    category := some "Transport", subcategory := none, conditions := none,
    priority := 10 }

def c1ops : List StoreOp :=
  [.ruleRun [c1tx] [c1rule],
   .manual "u1" (some "Food") none none none]

theorem claim_C1_witness :
    AtMostOneCurrent (applyOps (fun _ => none) (fun _ => none) [] c1ops) :=
  claim_C1_at_most_one_current (fun _ => none) (fun _ => none) [] c1ops
    (fun tid => by simp [currentCount])
    (by
      intro op hop
      rcases List.mem_cons.mp hop with rfl | hop
      · exact (by decide :
          (([c1tx].map (fun t => t.transaction_id)).Nodup))
      · rcases List.mem_cons.mp hop with rfl | hop
        · trivial
        · cases hop)

theorem hasCurrent_eq_filter_any (db : List CRec) (tid : String) :
    (db.filter (fun r => r.transaction_id == tid)).any (fun r => r.is_current) =
      hasCurrent db tid := by
  unfold hasCurrent
  induction db with
  | nil => rfl
  | cons r rest ih =>
    simp only [List.filter_cons, List.any_cons]
    by_cases hr : (r.transaction_id == tid) = true
    · rw [if_pos hr, List.any_cons, ih, hr, Bool.true_and]
    · rw [if_neg hr, ih, Bool.eq_false_iff.mpr hr, Bool.false_and,
        Bool.false_or]

/-- **C10.** In the rule-based save path, a transaction that was matched and
assigned a `rule_id` by the engine but whose assigning rule has a NULL
category is silently dropped before the database write: no classification
record is inserted for it (its stored records are unchanged), it still has no
current classification after the run, and it is loaded again by any future
rule run. -/
theorem claim_C10_null_category_dropped (rc : String → Option (String → Bool))
    (pc : String → Option Conditions) (txs : List Tx) (rules : List Rule)
    (db : List CRec) (i : Nat) (row : TxRow)
    (hnodup : (txs.map (fun t => t.transaction_id)).Nodup)
    (hrow : (apply_rules rc pc rules
      (load_unclassified_transactions txs db))[i]? = some row)
    (hsome : row.rule_id.isSome) (hcat : row.category = none) :
    (run_classification rc pc txs rules db).filter
        (fun r => r.transaction_id == row.tx.transaction_id) =
      db.filter (fun r => r.transaction_id == row.tx.transaction_id) ∧
    hasCurrent (run_classification rc pc txs rules db)
      row.tx.transaction_id = false ∧
    (∀ t ∈ txs, t.transaction_id = row.tx.transaction_id →
      t ∈ load_unclassified_transactions txs
        (run_classification rc pc txs rules db)) := by
  have hrmem : row ∈ apply_rules rc pc rules
      (load_unclassified_transactions txs db) := List.getElem?_mem hrow
  have htxmem : row.tx ∈ load_unclassified_transactions txs db :=
    mem_tx_of_mem_apply_rules hrmem
  have hcur_false : hasCurrent db row.tx.transaction_id = false :=
    (mem_load_unclassified.mp htxmem).2
  have hfil : (run_classification rc pc txs rules db).filter
      (fun r => r.transaction_id == row.tx.transaction_id) =
      db.filter (fun r => r.transaction_id == row.tx.transaction_id) := by
    unfold run_classification
    by_cases h0 : (load_unclassified_transactions txs db).length = 0
    · rw [if_pos h0]
    · rw [if_neg h0]
      by_cases h1 : 0 < ((apply_rules rc pc rules
          (load_unclassified_transactions txs db)).filter
            (fun r => r.rule_id.isSome)).length
      · rw [if_pos h1]
        apply filter_save_eq
        intro r hr _ hcatsome heq
        have hinj := List.inj_on_of_nodup_map
          (out_tids_nodup rc pc rules txs db hnodup)
        have hreq : r = row := hinj hr hrmem heq
        rw [hreq, hcat] at hcatsome
        exact Bool.noConfusion hcatsome
      · rw [if_neg h1]
  have hcur2 : hasCurrent (run_classification rc pc txs rules db)
      row.tx.transaction_id = false := by
    rw [← hasCurrent_eq_filter_any, hfil, hasCurrent_eq_filter_any]
    exact hcur_false
  refine ⟨hfil, hcur2, ?_⟩
  intro t ht htid
  apply mem_load_unclassified.mpr
  refine ⟨ht, ?_⟩
  rw [htid]
  exact hcur2

def c10tx : Tx :=
  { transaction_id := "x1", date := 0, transaction_type := "card_payment",
    amount := -10, currency := "PLN", description := some "UBER EATS",
    country := none, city := none }

def c10rule : Rule :=
  { id := 9, pattern := "UBER", match_type := "contains",
    source_column := "description", merchant := some "Uber",
    category := none, subcategory := none, conditions := none,
    priority := 10 }

def c10row : TxRow :=
  { tx := c10tx, merchant := some "Uber", category := none,
    subcategory := none, rule_id := some 9 }

/-! ### SHA-256

`short_hash` in `src/scripts/extract_transform.py` truncates the hex digest
of `hashlib.sha256`.  The identity claims depend on concrete digest values,
so SHA-256 (FIPS 180-4) is embedded executably over `Nat`, with all
recursion structural so that concrete digests reduce inside the kernel. -/

/-- Truncation to a 32-bit word. -/
def w32 (x : Nat) : Nat := x % 4294967296

def rotr (n x : Nat) : Nat := w32 ((x >>> n) ||| (x <<< (32 - n)))

def bigSigma0 (x : Nat) : Nat := Nat.xor (rotr 2 x) (Nat.xor (rotr 13 x) (rotr 22 x))

def bigSigma1 (x : Nat) : Nat := Nat.xor (rotr 6 x) (Nat.xor (rotr 11 x) (rotr 25 x))

def smallSigma0 (x : Nat) : Nat := Nat.xor (rotr 7 x) (Nat.xor (rotr 18 x) (x >>> 3))

def smallSigma1 (x : Nat) : Nat := Nat.xor (rotr 17 x) (Nat.xor (rotr 19 x) (x >>> 10))

def chF (x y z : Nat) : Nat := Nat.xor (Nat.land x y) (Nat.land (4294967295 - x) z)

def majF (x y z : Nat) : Nat :=
  Nat.xor (Nat.land x y) (Nat.xor (Nat.land x z) (Nat.land y z))

/-- The 64 SHA-256 round constants of FIPS 180-4 (the fractional parts of
the cube roots of the first 64 primes), written in decimal. -/
def shaK : List Nat :=
  [1116352408, 1899447441, 3049323471, 3921009573, 961987163,
   1508970993, 2453635748, 2870763221, 3624381080, 310598401,
   607225278, 1426881987, 1925078388, 2162078206, 2614888103,
   3248222580, 3835390401, 4022224774, 264347078, 604807628,
   770255983, 1249150122, 1555081692, 1996064986, 2554220882,
   2821834349, 2952996808, 3210313671, 3336571891, 3584528711,
   113926993, 338241895, 666307205, 773529912, 1294757372,
   1396182291, 1695183700, 1986661051, 2177026350, 2456956037,
   2730485921, 2820302411, 3259730800, 3345764771, 3516065817,
   3600352804, 4094571909, 275423344, 430227734, 506948616,
   659060556, 883997877, 958139571, 1322822218, 1537002063,
   1747873779, 1955562222, 2024104815, 2227730452, 2361852424,
   2428436474, 2756734187, 3204031479, 3329325298]

/-- UTF-8 encoding of one character (`str.encode()`). -/
def utf8Encode (c : Char) : List Nat :=
  let n := c.toNat
  if n < 128 then [n]
  else if n < 2048 then [192 + n / 64, 128 + n % 64]
  else if n < 65536 then [224 + n / 4096, 128 + (n / 64) % 64, 128 + n % 64]
  else [240 + n / 262144, 128 + (n / 4096) % 64, 128 + (n / 64) % 64,
    128 + n % 64]

def strBytes (s : String) : List Nat := s.data.flatMap utf8Encode

/-- SHA-256 padding: append 0x80, zero padding to 56 mod 64, and the 64-bit
big-endian bit length. -/
def padMsg (msg : List Nat) : List Nat :=
  let len := msg.length
  let padLen := (64 - (len + 9) % 64) % 64
  msg ++ [128] ++ List.replicate padLen 0 ++
    (List.range 8).map (fun i => ((len * 8) >>> ((7 - i) * 8)) % 256)

/-- Big-endian 32-bit words from bytes. -/
def toWords : List Nat → List Nat
  | b0 :: b1 :: b2 :: b3 :: rest =>
    ((b0 <<< 24) + (b1 <<< 16) + (b2 <<< 8) + b3) :: toWords rest
  | _ => []

/-- Message-schedule extension, on the reversed word list (head = most recent
word): runs the given number of steps. -/
def schedStep : Nat → List Nat → List Nat
  | 0, acc => acc
  | n + 1, acc =>
    schedStep n ((w32 (smallSigma1 (acc.getD 1 0) + acc.getD 6 0 +
      smallSigma0 (acc.getD 14 0) + acc.getD 15 0)) :: acc)

/-- The 64-word message schedule of one block. -/
def schedule (block : List Nat) : List Nat :=
  (schedStep 48 block.reverse).reverse

def compressRound (st : Nat × Nat × Nat × Nat × Nat × Nat × Nat × Nat)
    (kw : Nat × Nat) : Nat × Nat × Nat × Nat × Nat × Nat × Nat × Nat :=
  let (a, b, c, d, e, f, g, hh) := st
  let (k, w) := kw
  let t1 := w32 (hh + bigSigma1 e + chF e f g + k + w)
  let t2 := w32 (bigSigma0 a + majF a b c)
  (w32 (t1 + t2), a, b, c, w32 (d + t1), e, f, g)

def compressBlock (h : List Nat) (block : List Nat) : List Nat :=
  let ws := schedule (toWords block)
  let init : Nat × Nat × Nat × Nat × Nat × Nat × Nat × Nat :=
    (h.getD 0 0, h.getD 1 0, h.getD 2 0, h.getD 3 0, h.getD 4 0, h.getD 5 0,
     h.getD 6 0, h.getD 7 0)
  let (a, b, c, d, e, f, g, hh) := (shaK.zip ws).foldl compressRound init
  [w32 (h.getD 0 0 + a), w32 (h.getD 1 0 + b), w32 (h.getD 2 0 + c),
   w32 (h.getD 3 0 + d), w32 (h.getD 4 0 + e), w32 (h.getD 5 0 + f),
   w32 (h.getD 6 0 + g), w32 (h.getD 7 0 + hh)]

/-- Split into 64-byte blocks; the fuel argument (any bound at least the list
length) keeps the recursion structural. -/
def chunks64 : Nat → List Nat → List (List Nat)
  | 0, _ => []
  | _, [] => []
  | fuel + 1, b :: rest =>
    ((b :: rest).take 64) :: chunks64 fuel ((b :: rest).drop 64)

def hexDigit (n : Nat) : Char := "0123456789abcdef".data.getD n 'x'

def wordHex (n : Nat) : List Char :=
  (List.range 8).map (fun i => hexDigit ((n >>> ((7 - i) * 4)) % 16))

/-- The eight SHA-256 initial hash values of FIPS 180-4, in decimal. -/
def shaInit : List Nat :=
  [1779033703, 3144134277, 1013904242, 2773480762, 1359893119,
   2600822924, 528734635, 1541459225]

/-- `hashlib.sha256(s.encode()).hexdigest()`. -/
def sha256hex (s : String) : String :=
  let msg := padMsg (strBytes s)
  let hf := (chunks64 msg.length msg).foldl compressBlock shaInit
  ⟨hf.flatMap wordHex⟩

/-- `short_hash(*values, length=n)` (extract_transform.py lines 34-37):
join the `str()` renderings with `"|"`, SHA-256, first `n` hex characters. -/
def short_hash (values : List String) (length : Nat) : String :=
  ⟨(sha256hex (String.intercalate "|" values)).data.take length⟩

/-! ### Identity resolution of `transform`

The fallback passes of `transform` (extract_transform.py lines 244-284).
A `StdRow` is one standardized row as it stands just before these passes:
the eight columns of `df_std`.  `amount` is a parsed float in the source;
only its `str()` rendering enters the hashes, so it is carried as that
rendered string.  `date` is the raw CSV value (a string). -/
structure StdRow where
  transaction_id : Option String
  date : String
  transaction_type : String
  amount : String
  currency : String
  description : Option String
  country : Option String
  city : Option String
  deriving Repr, DecidableEq

/-- Python `str()` of a possibly-missing cell: `None` renders as `"None"`
(the dedup and synthetic hashes call `str` on raw cell values). -/
def pyStr : Option String → String
  | none => "None"
  | some s => s

/-- The synthetic fallback id (lines 250-264): deterministic content hash,
no row index. -/
def syntheticId (r : StdRow) : String :=
  "synthetic-" ++ short_hash [r.date, r.transaction_type, r.amount,
    r.currency, pyStr r.description, pyStr r.country, pyStr r.city] 12

/-- `df_std['transaction_id'].isna() | (df_std['transaction_id'] == '')`. -/
def isMissingId (r : StdRow) : Bool :=
  r.transaction_id = none || r.transaction_id = some ""

/-- Pass 1 (lines 250-264): fill empty/null ids with the synthetic hash. -/
def fill_missing_ids (rows : List StdRow) : List StdRow :=
  rows.map (fun r =>
    if isMissingId r then { r with transaction_id := some (syntheticId r) }
    else r)

/-- The dedup-suffixed id of one row (lines 269-282):
`base-id + "-dup-" + hash8(date, type, amount, currency, description,
country, city, base-id)`. -/
def dedupId (r : StdRow) : String :=
  pyStr r.transaction_id ++ "-dup-" ++
    short_hash [r.date, r.transaction_type, r.amount, r.currency,
      pyStr r.description, pyStr r.country, pyStr r.city,
      pyStr r.transaction_id] 8

/-- Number of rows carrying a given id. -/
def idCount (rows : List StdRow) (oid : Option String) : Nat :=
  rows.countP (fun r => r.transaction_id == oid)

/-- Pass 2 (lines 266-284): `duplicated(keep=False)` marks every row whose id
occurs more than once in the batch; each marked row gets the dedup-suffixed
id.  The mask is computed on the incoming ids before any row is rewritten. -/
def dedup_ids (rows : List StdRow) : List StdRow :=
  rows.map (fun r =>
    if 2 ≤ idCount rows r.transaction_id
    then { r with transaction_id := some (dedupId r) } else r)

/-- Both identity-resolution passes, in source order. -/
def resolve_ids (rows : List StdRow) : List StdRow :=
  dedup_ids (fill_missing_ids rows)

/-! ### The import batch loader

`insert_import_batch`, `insert_transactions` and the transactional part of
`main` (extract_transform.py lines 293-337 and 344-393). -/

/-- A row of the `import_batches` table. -/
structure BatchRow where
  import_batch_id : String
  source_file_name : String
  row_count : Nat
  status : String
  deriving Repr, DecidableEq

/-- A row of the `transactions` table as inserted by `insert_transactions`.
Only `transaction_id` takes part in conflict detection: it is the table's
unique key (`schema.sql` is not in the repository; the spec fixes
`CanonicalTransaction.id` as globally unique).  The remaining columns are
carried as the staged row plus the batch id — the per-column conversions
(ISO date rendering, NULL defaults, lines 308-328) do not involve the id. -/
structure TxTableRow where
  transaction_id : String
  row : StdRow
  import_batch_id : String
  deriving Repr, DecidableEq

structure ImportDb where
  batches : List BatchRow
  transactions : List TxTableRow
  deriving Repr, DecidableEq

/-- `r.get('transaction_id') or ''` (line 317). -/
def rowFinalId (r : StdRow) : String :=
  match r.transaction_id with
  | none => ""
  | some s => s

def hasId (tbl : List TxTableRow) (id : String) : Bool :=
  tbl.any (fun x => x.transaction_id == id)

/-- One row INSERT under the chosen conflict policy (lines 306, 330-336):
`OR IGNORE` skips a row whose id is already present, `OR REPLACE` deletes the
conflicting row and inserts the new one, plain INSERT (`abort`) raises
`IntegrityError` (`none`). -/
def insertTxRow (policy : String) (tbl : List TxTableRow) (r : StdRow)
    (batchId : String) : Option (List TxTableRow) :=
  if hasId tbl (rowFinalId r) then
    if policy = "ignore" then some tbl
    else if policy = "replace" then
      some ((tbl.filter (fun x => !(x.transaction_id == rowFinalId r))) ++
        [⟨rowFinalId r, r, batchId⟩])
    else none
  else some (tbl ++ [⟨rowFinalId r, r, batchId⟩])

/-- `insert_transactions` (lines 303-337): `executemany` row by row; under
`abort` the first collision raises, and the caller rolls the whole
transaction back, so the partial inserts before the failure never become
visible — returning `none` captures the observable outcome. -/
def insert_transactions (policy : String) (tbl : List TxTableRow)
    (rows : List StdRow) (batchId : String) : Option (List TxTableRow) :=
  match rows with
  | [] => some tbl
  | r :: rest =>
    match insertTxRow policy tbl r batchId with
    | none => none
    | some tbl2 => insert_transactions policy tbl2 rest batchId

/-- The body of the import transaction (main, lines 373-380): fail if the
batch id already exists, insert the batch row with status "ok", bulk-insert
the transactions.  `none` is an exception escaping the try block. -/
def importAttempt (db : ImportDb) (rows : List StdRow)
    (batchId fileName policy : String) : Option ImportDb :=
  if db.batches.any (fun b => b.import_batch_id == batchId) then none
  else
    match insert_transactions policy db.transactions rows batchId with
    | none => none
    | some tbl =>
      some { batches := db.batches ++ [⟨batchId, fileName, rows.length, "ok"⟩],
             transactions := tbl }

/-- The transactional part of `main` (lines 370-393), non-dry-run: on
success, COMMIT.  On any exception, ROLLBACK — which restores the batch-row
table and the transactions table to their prior state, the batch row written
inside the transaction included — and then the follow-up UPDATE setting
status = failed on the batch row by id, plus COMMIT.  Returns the final
state and whether the batch committed. -/
def run_import (db : ImportDb) (rows : List StdRow)
    (batchId fileName policy : String) : ImportDb × Bool :=
  match importAttempt db rows batchId fileName policy with
  | some db2 => (db2, true)
  | none =>
    ({ db with batches := db.batches.map (fun b =>
        if b.import_batch_id == batchId then { b with status := "failed" }
        else b) }, false)

theorem claim_C10_witness :
    (run_classification (fun _ => none) (fun _ => none) [c10tx] [c10rule]
        []).filter (fun r => r.transaction_id == c10row.tx.transaction_id) =
      ([] : List CRec).filter
        (fun r => r.transaction_id == c10row.tx.transaction_id) ∧
    hasCurrent (run_classification (fun _ => none) (fun _ => none) [c10tx]
      [c10rule] []) c10row.tx.transaction_id = false ∧
    (∀ t ∈ [c10tx], t.transaction_id = c10row.tx.transaction_id →
      t ∈ load_unclassified_transactions [c10tx]
        (run_classification (fun _ => none) (fun _ => none) [c10tx]
          [c10rule] [])) :=
  claim_C10_null_category_dropped (fun _ => none) (fun _ => none) [c10tx]
    [c10rule] [] 0 c10row (by decide) (by decide) (by decide) (by decide)

/-! ### Claims about the import pipeline -/

def c5row : StdRow :=
  { transaction_id := some "t1", date := "2024-01-02",
    transaction_type := "card_payment", amount := "-15.5", currency := "PLN",
    description := some "SHOP", country := none, city := none }

/-- A database holding one earlier, committed batch "B1" with one
transaction "t1". -/
def c5db : ImportDb :=
  { batches := [⟨"B1", "jan.csv", 1, "ok"⟩],
    transactions := [⟨"t1", c5row, "B1"⟩] }

/-- **C5.** Importing a file whose row collides with the stored transaction
"t1" under the `abort` policy, as batch "B2": the exception is raised after
the batch row was created, the transaction inserts are rolled back (the
transactions table is unchanged) — but the batch row "B2" was written
*inside* the rolled-back transaction, so the follow-up UPDATE setting
status = failed matches no row, and afterwards no batch row for "B2" exists
at all.  The operator-visible failed batch row of the claim is never
produced. -/
theorem claim_C5_failed_batch_row_missing :
    (run_import c5db [c5row] "B2" "jan.csv" "abort").2 = false ∧
    (run_import c5db [c5row] "B2" "jan.csv" "abort").1.transactions =
      c5db.transactions ∧
    (run_import c5db [c5row] "B2" "jan.csv" "abort").1.batches.any
      (fun b => b.import_batch_id == "B2") = false := by
  decide

theorem run_import_of_attempt (db : ImportDb) (rows : List StdRow)
    (batchId fileName policy : String) (db2 : ImportDb)
    (h : importAttempt db rows batchId fileName policy = some db2) :
    run_import db rows batchId fileName policy = (db2, true) := by
  unfold run_import
  rw [h]

theorem insert_ignore_total (rows : List StdRow) (tbl : List TxTableRow)
    (batchId : String) :
    ∃ tbl2, insert_transactions "ignore" tbl rows batchId = some tbl2 ∧
      (∀ id, hasId tbl id = true → hasId tbl2 id = true) ∧
      (∀ r ∈ rows, hasId tbl2 (rowFinalId r) = true) := by
  induction rows generalizing tbl with
  | nil =>
    exact ⟨tbl, rfl, fun id h => h, fun r hr => absurd hr (by simp)⟩
  | cons r rest ih =>
    by_cases hpresent : hasId tbl (rowFinalId r) = true
    · have hstep : insertTxRow "ignore" tbl r batchId = some tbl := by
        unfold insertTxRow
        rw [if_pos hpresent, if_pos rfl]
      rcases ih tbl with ⟨tbl2, heq, hmono, hall⟩
      refine ⟨tbl2, ?_, hmono, ?_⟩
      · show (match insertTxRow "ignore" tbl r batchId with
          | none => none
          | some tbl2 => insert_transactions "ignore" tbl2 rest batchId) =
            some tbl2
        rw [hstep]
        exact heq
      · intro r2 hr2
        rcases List.mem_cons.mp hr2 with rfl | hr2
        · exact hmono _ hpresent
        · exact hall r2 hr2
    · have hstep : insertTxRow "ignore" tbl r batchId =
          some (tbl ++ [⟨rowFinalId r, r, batchId⟩]) := by
        unfold insertTxRow
        rw [if_neg hpresent]
      rcases ih (tbl ++ [⟨rowFinalId r, r, batchId⟩]) with
        ⟨tbl2, heq, hmono, hall⟩
      have hmono0 : ∀ id, hasId tbl id = true →
          hasId (tbl ++ [⟨rowFinalId r, r, batchId⟩]) id = true := by
        intro id h
        unfold hasId at h ⊢
        rw [List.any_append, h, Bool.true_or]
      refine ⟨tbl2, ?_, fun id h => hmono id (hmono0 id h), ?_⟩
      · show (match insertTxRow "ignore" tbl r batchId with
          | none => none
          | some tbl2 => insert_transactions "ignore" tbl2 rest batchId) =
            some tbl2
        rw [hstep]
        exact heq
      · intro r2 hr2
        rcases List.mem_cons.mp hr2 with rfl | hr2
        · apply hmono
          unfold hasId
          rw [List.any_append]
          simp
        · exact hall r2 hr2

theorem insert_ignore_noop (rows : List StdRow) (tbl : List TxTableRow)
    (batchId : String)
    (h : ∀ r ∈ rows, hasId tbl (rowFinalId r) = true) :
    insert_transactions "ignore" tbl rows batchId = some tbl := by
  induction rows with
  | nil => rfl
  | cons r rest ih =>
    have hstep : insertTxRow "ignore" tbl r batchId = some tbl := by
      unfold insertTxRow
      rw [if_pos (h r (List.mem_cons_self r rest)), if_pos rfl]
    show (match insertTxRow "ignore" tbl r batchId with
      | none => none
      | some tbl2 => insert_transactions "ignore" tbl2 rest batchId) = some tbl
    rw [hstep]
    exact ih (fun r2 hr2 => h r2 (List.mem_cons_of_mem r hr2))

/-- **C6.** Importing the same transformed row set twice under the `ignore`
conflict policy is idempotent on the transactions table: the second import
commits but inserts zero new canonical transaction rows, because the
transform is a pure function of the file content (both imports insert the
same row list, quantified here) and colliding ids are skipped silently.
The two batch ids are distinct (the batch id embeds the import timestamp);
freshness of each is a hypothesis. -/
theorem claim_C6_reimport_idempotent (db0 : ImportDb) (rows : List StdRow)
    (b1 b2 f1 f2 : String)
    (hb1 : db0.batches.any (fun b => b.import_batch_id == b1) = false)
    (hb2 : (run_import db0 rows b1 f1 "ignore").1.batches.any
      (fun b => b.import_batch_id == b2) = false) :
    (run_import (run_import db0 rows b1 f1 "ignore").1 rows b2 f2
        "ignore").1.transactions =
      (run_import db0 rows b1 f1 "ignore").1.transactions ∧
    (run_import (run_import db0 rows b1 f1 "ignore").1 rows b2 f2
      "ignore").2 = true := by
  rcases insert_ignore_total rows db0.transactions b1 with
    ⟨tbl1, heq1, -, hall1⟩
  have hatt1 : importAttempt db0 rows b1 f1 "ignore" =
      some { batches := db0.batches ++ [⟨b1, f1, rows.length, "ok"⟩],
             transactions := tbl1 } := by
    unfold importAttempt
    rw [if_neg (by rw [hb1]; exact Bool.noConfusion), heq1]
  have hrun1 : (run_import db0 rows b1 f1 "ignore").1 =
      { batches := db0.batches ++ [⟨b1, f1, rows.length, "ok"⟩],
        transactions := tbl1 } := by
    rw [run_import_of_attempt db0 rows b1 f1 "ignore" _ hatt1]
  have hnoop : insert_transactions "ignore" tbl1 rows b2 = some tbl1 :=
    insert_ignore_noop rows tbl1 b2 hall1
  have hatt2 : importAttempt (run_import db0 rows b1 f1 "ignore").1 rows b2
      f2 "ignore" =
      some { batches := (run_import db0 rows b1 f1 "ignore").1.batches ++
               [⟨b2, f2, rows.length, "ok"⟩],
             transactions := tbl1 } := by
    unfold importAttempt
    rw [if_neg (by rw [hb2]; exact Bool.noConfusion)]
    rw [show (run_import db0 rows b1 f1 "ignore").1.transactions = tbl1 by
      rw [hrun1]]
    rw [hnoop]
  have hfin2 := run_import_of_attempt (run_import db0 rows b1 f1 "ignore").1
    rows b2 f2 "ignore" _ hatt2
  constructor
  · rw [hfin2, hrun1]
  · rw [hfin2]

theorem two_le_countP {α : Type} (p : α → Bool) (l : List α) (i j : Nat)
    (a b : α) (hi : l[i]? = some a) (hj : l[j]? = some b) (hij : i ≠ j)
    (hpa : p a = true) (hpb : p b = true) : 2 ≤ l.countP p := by
  induction l generalizing i j with
  | nil =>
    rw [List.getElem?_nil] at hi
    exact Option.noConfusion hi
  | cons x xs ih =>
    rw [List.countP_cons]
    cases i with
    | zero =>
      cases j with
      | zero => exact absurd rfl hij
      | succ j2 =>
        rw [List.getElem?_cons_zero] at hi
        have hxa : x = a := Option.some.inj hi
        have hj2 : xs[j2]? = some b := by
          rwa [List.getElem?_cons_succ] at hj
        have h1 : 0 < xs.countP p :=
          List.countP_pos.mpr ⟨b, List.getElem?_mem hj2, hpb⟩
        have hpx : p x = true := by rw [hxa]; exact hpa
        rw [if_pos hpx]
        omega
    | succ i2 =>
      cases j with
      | zero =>
        rw [List.getElem?_cons_zero] at hj
        have hxb : x = b := Option.some.inj hj
        have hi2 : xs[i2]? = some a := by
          rwa [List.getElem?_cons_succ] at hi
        have h1 : 0 < xs.countP p :=
          List.countP_pos.mpr ⟨a, List.getElem?_mem hi2, hpa⟩
        have hpx : p x = true := by rw [hxb]; exact hpb
        rw [if_pos hpx]
        omega
      | succ j2 =>
        have hi2 : xs[i2]? = some a := by
          rwa [List.getElem?_cons_succ] at hi
        have hj2 : xs[j2]? = some b := by
          rwa [List.getElem?_cons_succ] at hj
        have h2 := ih i2 j2 hi2 hj2 (fun hh => hij (congrArg Nat.succ hh))
        by_cases hx : p x = true
        · rw [if_pos hx]; omega
        · rw [if_neg hx]; omega

theorem getElem?_fill_of_present {rows : List StdRow} {i : Nat} {r : StdRow}
    (hi : rows[i]? = some r) (hp : ¬(isMissingId r = true)) :
    (fill_missing_ids rows)[i]? = some r := by
  unfold fill_missing_ids
  rw [List.getElem?_map, hi]
  show some (if isMissingId r then _ else r) = some r
  rw [if_neg hp]

theorem getElem?_dedup {rows : List StdRow} {i : Nat} {r : StdRow}
    (hi : rows[i]? = some r) (hc : 2 ≤ idCount rows r.transaction_id) :
    (dedup_ids rows)[i]? =
      some { r with transaction_id := some (dedupId r) } := by
  unfold dedup_ids
  rw [List.getElem?_map, hi]
  show some (if 2 ≤ idCount rows r.transaction_id then _ else r) = _
  rw [if_pos hc]

/-- **C7 (amended).** For every pair of rows at distinct positions in one
transform run carrying the same present natural id, the intra-batch dedup
gives each of them the final id
`base-id ++ "-dup-" ++ hash8(date, type, amount, currency, description,
country, city, original-id)` — a function of the row's content alone, so
re-running the transform on the same rows reproduces exactly the same final
ids — and the two final ids are distinct exactly when their 8-hex-character
content hashes are distinct: `hash8` is a 32-bit truncation, so two distinct
rows with colliding hashes receive identical final ids (see the
counterexample). -/
theorem claim_C7_amended (rows : List StdRow) (i j : Nat) (ri rj : StdRow)
    (hi : rows[i]? = some ri) (hj : rows[j]? = some rj) (hij : i ≠ j)
    (hbase : ri.transaction_id = rj.transaction_id)
    (hpresent : ¬(isMissingId ri = true)) :
    (resolve_ids rows)[i]? =
      some { ri with transaction_id := some (dedupId ri) } ∧
    (resolve_ids rows)[j]? =
      some { rj with transaction_id := some (dedupId rj) } ∧
    (short_hash [ri.date, ri.transaction_type, ri.amount, ri.currency,
        pyStr ri.description, pyStr ri.country, pyStr ri.city,
        pyStr ri.transaction_id] 8 ≠
      short_hash [rj.date, rj.transaction_type, rj.amount, rj.currency,
        pyStr rj.description, pyStr rj.country, pyStr rj.city,
        pyStr rj.transaction_id] 8 →
      (resolve_ids rows)[i]? ≠ (resolve_ids rows)[j]?) := by
  have hpresent2 : ¬(isMissingId rj = true) := by
    unfold isMissingId at hpresent ⊢
    rw [← hbase]
    exact hpresent
  have hfi : (fill_missing_ids rows)[i]? = some ri :=
    getElem?_fill_of_present hi hpresent
  have hfj : (fill_missing_ids rows)[j]? = some rj :=
    getElem?_fill_of_present hj hpresent2
  have hcnt : 2 ≤ idCount (fill_missing_ids rows) ri.transaction_id := by
    apply two_le_countP _ _ i j ri rj hfi hfj hij
    · exact beq_self_eq_true ri.transaction_id
    · rw [← hbase]
      exact beq_self_eq_true ri.transaction_id
  have hcnt2 : 2 ≤ idCount (fill_missing_ids rows) rj.transaction_id := by
    rwa [← hbase]
  have h1 : (resolve_ids rows)[i]? =
      some { ri with transaction_id := some (dedupId ri) } :=
    getElem?_dedup hfi hcnt
  have h2 : (resolve_ids rows)[j]? =
      some { rj with transaction_id := some (dedupId rj) } :=
    getElem?_dedup hfj hcnt2
  refine ⟨h1, h2, ?_⟩
  intro hne heq2
  rw [h1, h2] at heq2
  have hrec := Option.some.inj heq2
  have htid := congrArg (fun r : StdRow => r.transaction_id) hrec
  have hdid : dedupId ri = dedupId rj := by
    have : some (dedupId ri) = some (dedupId rj) := htid
    exact Option.some.inj this
  apply hne
  unfold dedupId at hdid
  rw [hbase] at hdid
  have hdata := congrArg String.data hdid
  rw [String.data_append, String.data_append, String.data_append,
    String.data_append] at hdata
  have hh := List.append_cancel_left hdata
  have hstr : short_hash [ri.date, ri.transaction_type, ri.amount,
      ri.currency, pyStr ri.description, pyStr ri.country, pyStr ri.city,
      pyStr rj.transaction_id] 8 =
      short_hash [rj.date, rj.transaction_type, rj.amount, rj.currency,
        pyStr rj.description, pyStr rj.country, pyStr rj.city,
        pyStr rj.transaction_id] 8 := String.ext hh
  rw [hbase]
  exact hstr

set_option maxRecDepth 10000

def c7r1 : StdRow :=
  { transaction_id := some "12345", date := "2024-01-02",
    transaction_type := "card_payment", amount := "-15.5", currency := "PLN",
    description := some "DESC138945", country := some "PL",
    city := some "WARSZAWA" }

def c7r2 : StdRow :=
  { c7r1 with description := some "DESC161927" }

/-- **C7, counterexample.** Two distinct rows sharing the natural id "12345"
whose dedup-hash inputs collide on the 8-hex-character (32-bit) truncation of
SHA-256 (both hash to "a6e21004"): the dedup pass gives both the same final
id, so the two final ids are not distinct and the claim fails as stated. -/
theorem claim_C7_counterexample :
    c7r1 ≠ c7r2 ∧ c7r1.transaction_id = c7r2.transaction_id ∧
    ((resolve_ids [c7r1, c7r2]).map (fun r => r.transaction_id)) =
      [some "12345-dup-a6e21004", some "12345-dup-a6e21004"] := by
  decide

def c7w1 : StdRow :=
  { transaction_id := some "555", date := "2024-02-01",
    transaction_type := "card_payment", amount := "-3.0", currency := "PLN",
    description := some "AAA", country := none, city := none }

def c7w2 : StdRow :=
  { c7w1 with description := some "BBB" }

theorem claim_C7_witness :
    (resolve_ids [c7w1, c7w2])[0]? =
      some { c7w1 with transaction_id := some (dedupId c7w1) } ∧
    (resolve_ids [c7w1, c7w2])[1]? =
      some { c7w2 with transaction_id := some (dedupId c7w2) } ∧
    (short_hash [c7w1.date, c7w1.transaction_type, c7w1.amount, c7w1.currency,
        pyStr c7w1.description, pyStr c7w1.country, pyStr c7w1.city,
        pyStr c7w1.transaction_id] 8 ≠
      short_hash [c7w2.date, c7w2.transaction_type, c7w2.amount, c7w2.currency,
        pyStr c7w2.description, pyStr c7w2.country, pyStr c7w2.city,
        pyStr c7w2.transaction_id] 8 →
      (resolve_ids [c7w1, c7w2])[0]? ≠ (resolve_ids [c7w1, c7w2])[1]?) :=
  claim_C7_amended [c7w1, c7w2] 0 1 c7w1 c7w2 (by decide) (by decide)
    (by decide) (by decide) (by decide)

def c6row : StdRow :=
  { transaction_id := some "n1", date := "2024-01-03",
    transaction_type := "card_payment", amount := "-7.25", currency := "PLN",
    description := some "CAFE", country := none, city := none }

theorem claim_C6_witness :
    (run_import (run_import ⟨[], []⟩ [c6row] "B1" "f.csv" "ignore").1 [c6row]
        "B2" "f.csv" "ignore").1.transactions =
      (run_import ⟨[], []⟩ [c6row] "B1" "f.csv" "ignore").1.transactions ∧
    (run_import (run_import ⟨[], []⟩ [c6row] "B1" "f.csv" "ignore").1 [c6row]
      "B2" "f.csv" "ignore").2 = true :=
  claim_C6_reimport_idempotent ⟨[], []⟩ [c6row] "B1" "B2" "f.csv" "f.csv"
    (by decide) (by decide)

end Expensior
